import Mathlib

/-!
# Serial transport of the laureline firmware (`src/serial.c`)

A shallow embedding of `serial.c`: the outbound ring buffer (`outqueue_init`,
`outqueue_put`, `outqueue_getI`), the port functions (`serial_start`,
`serial_set_speed`, `serial_getc`, `serial_write`) and the interrupt handler
(`service_interrupt`), with proofs of the FIFO behaviour of the ring buffer and
of the behaviour of the port.

Conventions of the embedding

* Pointers are addresses (`Nat`); the byte memory is a function from addresses
  to values, a byte load reads `mem a % 256`, a byte store writes `v % 256`.
* `uint8_t` arithmetic is written with an explicit `% 256`, a `uint16_t` variable
  holds a value `% 65536`.
* `serial.h`, `common.h`, the device headers and the RTOS headers are not among
  the sources.  The constants they define are parameters, collected in `Consts`
  and `Hw`.
* The RTOS calls are external.  `CoCreateFlag` and `CoCreateMutex` are
  represented by the id they return, `isr_SetFlag` by a log of the posted flag
  ids, and `CoWaitForSingleFlag` by a suspension point: `outqueue_put` runs up to
  the call, and `outqueue_put_resume` continues from the value the call returned.
* `outqueue_put` and `serial_write` are also embedded statement by statement,
  with the interrupt handler running between any two statements when interrupts
  are not masked.
* Reads of the device registers `SR` and `DR` are inputs, writes to `DR` are
  logged, `BRR` and `CR1` hold the value last written.
-/

namespace Serial

/-- Constants of headers that are not among the sources. `NO_CHAR` is the empty
sentinel of the 16-bit character fields, `E_OK` and `E_CREATE_FAIL` are status
values of the RTOS. -/
structure Consts where
  NO_CHAR : Nat
  E_OK : Nat
  E_CREATE_FAIL : Nat

/-- The `queue_t` of `serial.c`: the flag posted when room becomes available,
the four pointers into the storage and the number of free slots (`uint8_t`, as
the `size` it is initialised from). -/
structure queue_t where
  flag : Nat
  p_bot : Nat
  p_top : Nat
  p_write : Nat
  p_read : Nat
  count : Nat

/-- What the queue functions act on: the queue record, the byte memory its
pointers refer to, and the flag ids passed to `isr_SetFlag` so far (oldest
first). -/
structure State where
  q : queue_t
  mem : Nat → Nat
  posted : List Nat

/-- Byte store `*p = v`. -/
def store (mem : Nat → Nat) (p v : Nat) : Nat → Nat :=
  fun a => if a = p then v % 256 else mem a

/-- Byte load `*p`. -/
def load (mem : Nat → Nat) (p : Nat) : Nat :=
  mem p % 256

/-- `outqueue_init(q, buf, size)`; `fid` is the value returned by
`CoCreateFlag(1, 0)`.  `ASSERT` comes from `common.h`; as the specification
describes it (a failed creation asserts and halts), a failing `ASSERT` stops the
program, which is the result `none`. -/
def outqueue_init (c : Consts) (fid : Nat) (s : State) (buf size : Nat) : Option State :=
  let q1 := { s.q with flag := fid }
  if q1.flag = c.E_CREATE_FAIL then none
  else
    let q2 := { q1 with p_bot := buf, p_read := buf, p_write := buf }
    let q3 := { q2 with p_top := buf + size }
    some { s with q := { q3 with count := size } }

/-- How a call of `outqueue_put` proceeds: it has returned `rc`, or it is
suspended inside `CoWaitForSingleFlag(flag, timeout)` with interrupts enabled. -/
inductive PutOutcome where
  | returned (rc : Nat) (s : State)
  | waiting (flag timeout : Nat) (s : State)

/-- The state in which a put has returned or is suspended. -/
def PutOutcome.state : PutOutcome → State
  | .returned _ s => s
  | .waiting _ _ s => s

/-- Lines 41-47 of `outqueue_put`: the enqueue proper, after the wait loop. -/
def outqueue_put_enqueue (c : Consts) (s : State) (value : Nat) : PutOutcome :=
  let count := (s.q.count + 255) % 256
  let mem := store s.mem s.q.p_write value
  let p_write := s.q.p_write + 1
  let p_write := if p_write = s.q.p_top then s.q.p_bot else p_write
  .returned c.E_OK { s with q := { s.q with count := count, p_write := p_write }, mem := mem }

/-- The function `outqueue_put(q, value, timeout)` from its entry (the test of the
wait loop) up to its return or its first call of `CoWaitForSingleFlag`. -/
def outqueue_put (c : Consts) (s : State) (value timeout : Nat) : PutOutcome :=
  if s.q.count = 0 then .waiting s.q.flag 0 s
  else outqueue_put_enqueue c s value

/-- The function `outqueue_put` continued after `CoWaitForSingleFlag` returned
`rc`, in the state `s` the queue has at that moment. -/
def outqueue_put_resume (c : Consts) (s : State) (value timeout rc : Nat) : PutOutcome :=
  if rc ≠ c.E_OK then .returned rc s
  else outqueue_put c s value timeout

/-- `outqueue_getI(q)`: the returned value and the state after the call. -/
def outqueue_getI (c : Consts) (s : State) : Nat × State :=
  if s.q.p_write = s.q.p_read ∧ s.q.count ≠ 0 then (c.NO_CHAR, s)
  else
    let count := (s.q.count + 1) % 256
    let ret := load s.mem s.q.p_read
    let p_read := s.q.p_read + 1
    let p_read := if p_read = s.q.p_top then s.q.p_bot else p_read
    (ret, { s with q := { s.q with count := count, p_read := p_read },
                   posted := s.posted ++ [s.q.flag] })

/-- The calls that can be made on a queue: a call of `outqueue_put`, the
continuation of a suspended `outqueue_put` with the status `rc` of its wait,
and a call of `outqueue_getI`. -/
inductive Op where
  | put (value timeout : Nat)
  | resume (value timeout rc : Nat)
  | getI

/-- The state after one call. -/
def step (c : Consts) (s : State) : Op → State
  | .put v t => (outqueue_put c s v t).state
  | .resume v t rc => (outqueue_put_resume c s v t rc).state
  | .getI => (outqueue_getI c s).2

/-- The state after a sequence of calls. -/
def run (c : Consts) : State → List Op → State
  | s, [] => s
  | s, op :: ops => run c (step c s op) ops

/-- A state is reachable for capacity `N` when a sequence of calls leads to it
from a state produced by `outqueue_init` with size `N`. -/
def Reachable (c : Consts) (N : Nat) (s : State) : Prop :=
  ∃ (fid : Nat) (s0 s1 : State) (buf : Nat) (ops : List Op),
    outqueue_init c fid s0 buf N = some s1 ∧ s = run c s1 ops

/-- An offset below `2 * N` wrapped into `0 .. N - 1`. -/
def wrap (N x : Nat) : Nat :=
  if x < N then x else x - N

/-- The queued bytes, oldest first: the `N - count` bytes of the storage that
start at `p_read`, wrapping at the end of the storage. -/
def contents (N : Nat) (s : State) : List Nat :=
  (List.range (N - s.q.count)).map
    (fun i => load s.mem (s.q.p_bot + wrap N (s.q.p_read - s.q.p_bot + i)))

/-- The representation invariant of a queue of capacity `N`. -/
structure WF (N : Nat) (s : State) : Prop where
  pos : 1 ≤ N
  small : N ≤ 255
  top : s.q.p_top = s.q.p_bot + N
  rd_lo : s.q.p_bot ≤ s.q.p_read
  rd_hi : s.q.p_read < s.q.p_top
  cnt : s.q.count ≤ N
  wr : s.q.p_write = s.q.p_bot + wrap N (s.q.p_read - s.q.p_bot + (N - s.q.count))

/-- What a caller sees of one call: whether a put-like call enqueued its byte
(it returned `E_OK`), or the value `outqueue_getI` returned. -/
inductive Obs where
  | put (enqueued : Bool)
  | got (ret : Nat)
  deriving DecidableEq

/-- A put-like call has enqueued its byte when it returned `E_OK`. -/
def PutOutcome.enqueued (c : Consts) : PutOutcome → Bool
  | .returned rc _ => decide (rc = c.E_OK)
  | .waiting _ _ _ => false

/-- The observation of one call made in state `s`. -/
def observe (c : Consts) (s : State) : Op → Obs
  | .put v t => .put ((outqueue_put c s v t).enqueued c)
  | .resume v t rc => .put ((outqueue_put_resume c s v t rc).enqueued c)
  | .getI => .got (outqueue_getI c s).1

/-- The observations of a sequence of calls, in order. -/
def trace (c : Consts) : State → List Op → List Obs
  | _, [] => []
  | s, op :: ops => observe c s op :: trace c (step c s op) ops

/-- The bytes returned by the `outqueue_getI` calls of a sequence of calls, in
order (the calls that returned `NO_CHAR` contribute nothing). -/
def drained (c : Consts) : State → List Op → List Nat
  | _, [] => []
  | s, .getI :: ops =>
    if (outqueue_getI c s).1 = c.NO_CHAR then drained c (step c s .getI) ops
    else (outqueue_getI c s).1 :: drained c (step c s .getI) ops
  | s, op :: ops => drained c (step c s op) ops

/-- The bytes passed to the `outqueue_put` calls of a sequence of calls, in
order (`value` is a `uint8_t`). -/
def putBytes : List Op → List Nat
  | [] => []
  | .put v _ :: ops => (v % 256) :: putBytes ops
  | _ :: ops => putBytes ops

/-- An interleaving of `outqueue_getI` calls and of `outqueue_put` calls that are
each made when `count > 0`. -/
def roomyPuts (c : Consts) : State → List Op → Bool
  | _, [] => true
  | s, .put v t :: ops => decide (s.q.count ≠ 0) && roomyPuts c (step c s (.put v t)) ops
  | _, .resume _ _ _ :: _ => false
  | s, .getI :: ops => roomyPuts c (step c s .getI) ops

/-! ## The bounded FIFO list of the specification

These definitions follow the words of the specification, not the code: a
buffer of fixed capacity holding bytes in submission order; `put` enqueues when
a slot is free and otherwise suspends; `drainOne` returns the next byte or the
empty sentinel. -/

namespace FifoSpec

/-- The specification's `put` on a list of capacity `N`: the new list and whether
the byte was enqueued. -/
def put (N : Nat) (l : List Nat) (v : Nat) : List Nat × Bool :=
  if l.length < N then (l ++ [v % 256], true) else (l, false)

/-- The specification's `drainOne`: the oldest byte, or the empty sentinel. -/
def drainOne (NO_CHAR : Nat) : List Nat → Nat × List Nat
  | [] => (NO_CHAR, [])
  | b :: rest => (b, rest)

/-- One call on the specification's list: the new list and the observation. A
suspended put that is woken with a failing status gives up. -/
def step (c : Consts) (N : Nat) (l : List Nat) : Op → List Nat × Obs
  | .put v _ => ((put N l v).1, .put (put N l v).2)
  | .resume v _ rc =>
    if rc ≠ c.E_OK then (l, .put false) else ((put N l v).1, .put (put N l v).2)
  | .getI => ((drainOne c.NO_CHAR l).2, .got (drainOne c.NO_CHAR l).1)

/-- The observations of a sequence of calls on the specification's list. -/
def trace (c : Consts) (N : Nat) : List Nat → List Op → List Obs
  | _, [] => []
  | l, op :: ops => (step c N l op).2 :: trace c N (step c N l op).1 ops

end FifoSpec

/-! ## Concrete data for worked examples -/

/-- Sample values of the header constants: a 16-bit sentinel outside `0..255`
and two distinct status values. -/
def exConsts : Consts := ⟨0xFFFF, 0, 0xFF⟩

/-- A state before initialisation: a zeroed queue record and zeroed memory. -/
def exBlank : State := ⟨⟨0, 0, 0, 0, 0, 0⟩, fun _ => 0, []⟩

/-- The state `outqueue_init` produces from `exBlank` for flag id `1`, storage
address `100` and the given size. -/
def exInit (size : Nat) : State := ⟨⟨1, 100, 100 + size, 100, 100, size⟩, fun _ => 0, []⟩

/-- An interleaving on a queue of capacity 2 whose cursors wrap around. -/
def exOps : List Op :=
  [.put 0x41 0, .put 0x42 0, .getI, .put 0x43 0, .getI, .getI, .getI, .put 0x44 0, .getI]

/-- The four puts of the capacity-4 scenario. -/
def fourPuts (t : Nat) : List Op :=
  [.put 0x41 t, .put 0x42 t, .put 0x43 t, .put 0x44 t]

/-- A call of `outqueue_put` driven through the statuses `rcs` returned by its
successive waits, while no interrupt handler runs: a suspended call is resumed
with the next status, a call that has returned stays returned. -/
def PutOutcome.wakes (c : Consts) (value timeout : Nat) : PutOutcome → List Nat → PutOutcome
  | .waiting _ _ s, rc :: rcs =>
    PutOutcome.wakes c value timeout (outqueue_put_resume c s value timeout rc) rcs
  | .waiting flag tm s, [] => .waiting flag tm s
  | .returned rc s, _ => .returned rc s

/-! ## The port

The device registers, the clock and interrupt controllers and the RTOS
mutex are external.  Reads of the status and data registers are inputs of the
functions, writes to the data register are logged, `BRR` and `CR1` hold the
value last written. -/

/-- Constants of the device and board headers, which are not among the
sources: the device handles, the bits of the status and control registers, the
clock-enable bits, the interrupt numbers and priority, the size
`USART_TX_BUF` of the outbound storage, and the width in bits
`USART_BRR_BITS` of the register `BRR` as `USART_TypeDef` declares it. -/
structure Hw where
  USART1 : Nat
  USART2 : Nat
  USART3 : Nat
  UART4 : Nat
  UART5 : Nat
  USART_SR_RXNE : Nat
  USART_SR_TXE : Nat
  USART_CR1_UE : Nat
  USART_CR1_TE : Nat
  USART_CR1_RE : Nat
  USART_CR1_RXNEIE : Nat
  USART_CR1_TXEIE : Nat
  RCC_APB2ENR_USART1EN : Nat
  RCC_APB1ENR_USART2EN : Nat
  RCC_APB1ENR_USART3EN : Nat
  RCC_APB1ENR_UART4EN : Nat
  RCC_APB1ENR_UART5EN : Nat
  USART1_IRQn : Nat
  USART2_IRQn : Nat
  USART3_IRQn : Nat
  UART4_IRQn : Nat
  UART5_IRQn : Nat
  IRQ_PRIO_USART : Nat
  USART_TX_BUF : Nat
  USART_BRR_BITS : Nat

/-- The registers of one device that the program writes: `BRR` and `CR1` hold the
value last written, `DR` lists the values written to the data register, oldest
first. -/
structure USART_TypeDef where
  BRR : Nat
  CR1 : Nat
  DR : List Nat

/-- The fields of `serial_t` other than the queue record `out_q`, which is the
`q` of the queue state; `out_buf` is the address of the storage array. -/
structure serial_t where
  device : Nat
  speed : Nat
  rx_char : Nat
  mutex_id : Nat
  rx_flag : Nat
  out_buf : Nat

/-- A call made to the interrupt controller. -/
inductive NvicCall where
  | SetPriority (irq prio : Nat)
  | EnableIRQ (irq : Nat)

/-- A call made to the RTOS mutex functions. -/
inductive MutexCall where
  | enter (id : Nat)
  | leave (id : Nat)

/-- Everything the port functions act on: the `serial_t`, its outbound queue
with the memory and the posted flags, the registers of each device, the two
clock-enable registers, the calls made to the interrupt controller and to the
mutex functions, and the global `system_frequency`. -/
structure Port where
  serial : serial_t
  out : State
  usart : Nat → USART_TypeDef
  APB1ENR : Nat
  APB2ENR : Nat
  nvic : List NvicCall
  mutex : List MutexCall
  system_frequency : Nat

/-- The value of `x & ~m`. -/
def andNot (x m : Nat) : Nat :=
  x ^^^ (x &&& m)

/-- The port with the registers of device `u` replaced by `r`. -/
def setRegs (w : Port) (u : Nat) (r : USART_TypeDef) : Port :=
  { w with usart := fun a => if a = u then r else w.usart a }

/-- `serial_set_speed(serial)`. The speed is taken as a natural number; the
result is `none` when the division is by zero. The quotient is converted to the
type of the register `BRR`, whose width `USART_BRR_BITS` is a parameter. -/
def serial_set_speed (hw : Hw) (w : Port) : Option Port :=
  let u := w.serial.device
  if u = hw.USART1 then
    if w.serial.speed = 0 then none
    else some (setRegs w u { w.usart u with
      BRR := (w.system_frequency / w.serial.speed) % 2 ^ hw.USART_BRR_BITS })
  else
    if w.serial.speed = 0 then none
    else some (setRegs w u { w.usart u with
      BRR := (w.system_frequency / 2 / w.serial.speed) % 2 ^ hw.USART_BRR_BITS })

/-- The wait that `serial_getc` starts with: the flag and the timeout passed to
`CoWaitForSingleFlag`. -/
def serial_getc_wait (w : Port) : Nat × Nat :=
  (w.serial.rx_flag, 0)

/-- `serial_getc(serial)` from the return of its wait: `rc` is the status the
wait returned and `w` the port at that moment. The result is `none` when the
`ASSERT` fails, and otherwise the returned `char` (as its 8 bits) and the port
after the call. -/
def serial_getc (c : Consts) (w : Port) (rc : Nat) : Option (Nat × Port) :=
  if rc ≠ c.E_OK then none
  else
    let ret := w.serial.rx_char % 256
    some (ret, { w with serial := { w.serial with rx_char := c.NO_CHAR } })

/-- The statement `u->CR1 &= ~USART_CR1_TXEIE` on the device of the port. -/
def txeie_off (hw : Hw) (w : Port) : Port :=
  let u := w.serial.device
  setRegs w u { w.usart u with CR1 := andNot (w.usart u).CR1 hw.USART_CR1_TXEIE }

/-- The statement `u->DR = dr` on the device of the port. -/
def write_DR (w : Port) (dr : Nat) : Port :=
  let u := w.serial.device
  setRegs w u { w.usart u with DR := (w.usart u).DR ++ [dr] }

/-- The receive part of `service_interrupt` (lines 172-173): `rx_char` is
overwritten with `dr` and `rx_flag` is posted. -/
def publish_rx (w : Port) (dr : Nat) : Port :=
  { w with serial := { w.serial with rx_char := dr },
           out := { w.out with posted := w.out.posted ++ [w.serial.rx_flag] } }

/-- The drain loop of `service_interrupt`. `SR i` is the value of the `i`-th read
of the status register in this invocation, `i` the number of the next read, `sr`
the current value of the variable `sr`. `fuel` bounds the number of executions of
the loop body; the result is `none` when it does not suffice, and otherwise the
port after the loop and the number of executions of the loop body. -/
def service_interrupt_loop (hw : Hw) (c : Consts) (SR : Nat → Nat) :
    Nat → Nat → Nat → Port → Option (Port × Nat)
  | 0, _, sr, w => if sr &&& hw.USART_SR_TXE = 0 then some (w, 0) else none
  | fuel + 1, i, sr, w =>
    if sr &&& hw.USART_SR_TXE = 0 then some (w, 0)
    else
      let r := outqueue_getI c w.out
      let dr := r.1
      let w1 := { w with out := r.2 }
      if dr = c.NO_CHAR then some (txeie_off hw w1, 1)
      else
        let w2 := write_DR w1 dr
        let sr := SR i % 65536
        (service_interrupt_loop hw c SR fuel (i + 1) sr w2).map (fun x => (x.1, x.2 + 1))

/-- `service_interrupt(serial)`. `SR i` is the value of the `i`-th read of the
status register (`i = 0` for the read at the entry), `DR` the value read from the
data register. -/
def service_interrupt (hw : Hw) (c : Consts) (fuel : Nat) (SR : Nat → Nat) (DR : Nat) (w : Port) :
    Option (Port × Nat) :=
  let sr := SR 0 % 65536
  let dr := DR % 65536
  let w1 := if sr &&& hw.USART_SR_RXNE ≠ 0 then publish_rx w dr else w
  service_interrupt_loop hw c SR fuel 1 sr w1

/-- Why `serial_start` stopped instead of returning. -/
inductive Stop where
  | HALT
  | division_by_zero
  | ASSERT_mutex
  | ASSERT_rx_flag
  | ASSERT_queue_flag

/-- How a call of `serial_start` ends: it returned, or the program stopped in
it, in the given port state. -/
inductive StartOutcome where
  | returned (w : Port)
  | stopped (why : Stop) (w : Port)

/-- The chain of comparisons of `serial_start` (lines 72-94): the clock enable
and the two calls to the interrupt controller of the matching device, or `none`
when no device matches and `HALT()` is reached. -/
def serial_start_enable (hw : Hw) (w : Port) (u : Nat) : Option Port :=
  if u = hw.USART1 then
    some { w with APB2ENR := w.APB2ENR ||| hw.RCC_APB2ENR_USART1EN,
                  nvic := w.nvic ++ [.SetPriority hw.USART1_IRQn hw.IRQ_PRIO_USART,
                                     .EnableIRQ hw.USART1_IRQn] }
  else if u = hw.USART2 then
    some { w with APB1ENR := w.APB1ENR ||| hw.RCC_APB1ENR_USART2EN,
                  nvic := w.nvic ++ [.SetPriority hw.USART2_IRQn hw.IRQ_PRIO_USART,
                                     .EnableIRQ hw.USART2_IRQn] }
  else if u = hw.USART3 then
    some { w with APB1ENR := w.APB1ENR ||| hw.RCC_APB1ENR_USART3EN,
                  nvic := w.nvic ++ [.SetPriority hw.USART3_IRQn hw.IRQ_PRIO_USART,
                                     .EnableIRQ hw.USART3_IRQn] }
  else if u = hw.UART4 then
    some { w with APB1ENR := w.APB1ENR ||| hw.RCC_APB1ENR_UART4EN,
                  nvic := w.nvic ++ [.SetPriority hw.UART4_IRQn hw.IRQ_PRIO_USART,
                                     .EnableIRQ hw.UART4_IRQn] }
  else if u = hw.UART5 then
    some { w with APB1ENR := w.APB1ENR ||| hw.RCC_APB1ENR_UART5EN,
                  nvic := w.nvic ++ [.SetPriority hw.UART5_IRQn hw.IRQ_PRIO_USART,
                                     .EnableIRQ hw.UART5_IRQn] }
  else none

/-- `serial_start(serial, u, speed)`; `mid`, `rxfid` and `qfid` are the values
returned by `CoCreateMutex()` and by the two calls of `CoCreateFlag(1, 0)`.
`HALT` and `ASSERT` come from `common.h`; as the specification describes them
(fatal halt), they stop the program. -/
def serial_start (hw : Hw) (c : Consts) (mid rxfid qfid : Nat) (w : Port) (u speed : Nat) :
    StartOutcome :=
  let w1 := { w with serial := { w.serial with device := u, speed := speed,
                                               rx_char := c.NO_CHAR } }
  match serial_start_enable hw w1 u with
  | none => .stopped .HALT w1
  | some w2 =>
    match serial_set_speed hw w2 with
    | none => .stopped .division_by_zero w2
    | some w3 =>
      let cr1 := 0 ||| hw.USART_CR1_UE ||| hw.USART_CR1_TE ||| hw.USART_CR1_RE
        ||| hw.USART_CR1_RXNEIE
      let w4 := setRegs w3 u { w3.usart u with CR1 := cr1 }
      let w5 := { w4 with serial := { w4.serial with mutex_id := mid } }
      if w5.serial.mutex_id = c.E_CREATE_FAIL then .stopped .ASSERT_mutex w5
      else
        let w6 := { w5 with serial := { w5.serial with rx_flag := rxfid } }
        if w6.serial.rx_flag = c.E_CREATE_FAIL then .stopped .ASSERT_rx_flag w6
        else
          match outqueue_init c qfid w6.out w6.serial.out_buf hw.USART_TX_BUF with
          | none => .stopped .ASSERT_queue_flag w6
          | some st => .returned { w6 with out := st }

/-- Sample values of the device constants (those of the STM32F1 headers) with a
storage of 4 bytes and a 16-bit `BRR`. -/
def exHw : Hw :=
  { USART1 := 0x40013800, USART2 := 0x40004400, USART3 := 0x40004800,
    UART4 := 0x40004C00, UART5 := 0x40005000,
    USART_SR_RXNE := 0x20, USART_SR_TXE := 0x80,
    USART_CR1_UE := 0x2000, USART_CR1_TE := 0x8, USART_CR1_RE := 0x4,
    USART_CR1_RXNEIE := 0x20, USART_CR1_TXEIE := 0x80,
    RCC_APB2ENR_USART1EN := 0x4000, RCC_APB1ENR_USART2EN := 0x20000,
    RCC_APB1ENR_USART3EN := 0x40000, RCC_APB1ENR_UART4EN := 0x80000,
    RCC_APB1ENR_UART5EN := 0x100000,
    USART1_IRQn := 37, USART2_IRQn := 38, USART3_IRQn := 39, UART4_IRQn := 52,
    UART5_IRQn := 53, IRQ_PRIO_USART := 6, USART_TX_BUF := 4, USART_BRR_BITS := 16 }

/-- A port on `USART1` at 115200 baud with a 72 MHz clock, whose queue is the
state `st`; its inbound slot holds `0x141`, its receive flag is 2, and the
control register has `UE`, `TE`, `RE`, `RXNEIE` and `TXEIE` set. -/
def exPort (st : State) : Port :=
  { serial := { device := 0x40013800, speed := 115200, rx_char := 0x141, mutex_id := 3,
                rx_flag := 2, out_buf := 100 },
    out := st,
    usart := fun _ => { BRR := 0, CR1 := 0x20AC, DR := [] },
    APB1ENR := 0, APB2ENR := 0, nvic := [], mutex := [], system_frequency := 72000000 }

/-- The effect on the port `w` of draining `j` bytes to the data register,
giving `w2`: the first `j` queued bytes are appended to the values written to
`DR` and removed from the queue, the queue flag is posted `j` times, `TXEIE` is
cleared in `CR1` when `cleared` holds, and nothing else changes. -/
structure DrainEffect (hw : Hw) (N : Nat) (w w2 : Port) (j : Nat) (cleared : Bool) : Prop where
  serial : w2.serial = w.serial
  wf : WF N w2.out
  mem : w2.out.mem = w.out.mem
  qflag : w2.out.q.flag = w.out.q.flag
  bot : w2.out.q.p_bot = w.out.q.p_bot
  posted : w2.out.posted = w.out.posted ++ List.replicate j w.out.q.flag
  dr : (w2.usart w.serial.device).DR
        = (w.usart w.serial.device).DR ++ (contents N w.out).take j
  rest : contents N w2.out = (contents N w.out).drop j
  cr1 : (w2.usart w.serial.device).CR1
        = if cleared then andNot (w.usart w.serial.device).CR1 hw.USART_CR1_TXEIE
          else (w.usart w.serial.device).CR1
  brr : (w2.usart w.serial.device).BRR = (w.usart w.serial.device).BRR
  others : ∀ a, a ≠ w.serial.device → w2.usart a = w.usart a
  apb1 : w2.APB1ENR = w.APB1ENR
  apb2 : w2.APB2ENR = w.APB2ENR
  nvic : w2.nvic = w.nvic
  mutex : w2.mutex = w.mutex
  freq : w2.system_frequency = w.system_frequency

/-- Status reads with `TXE` set on the first two and clear afterwards. -/
def exTwoReady : Nat → Nat :=
  fun i => if i < 2 then 0x80 else 0

/-- The statements of `outqueue_put`, named by what they do: line 32
(`disable`), the loop test of line 33, lines 34, 35, 36 and 39 inside the loop,
lines 41 (`dec`), 42 (`store`), 43-45 (`wrap`), 46 (`restore`), 47 (`ret_ok`),
and the state after the return. -/
inductive Pc where
  | disable
  | test
  | restore_wait
  | wait
  | check
  | redisable
  | dec
  | store
  | wrap
  | restore
  | ret_ok
  | returned (rc : Nat)
  deriving DecidableEq

/-- The statements that read or write `count`, `p_write` or the storage. -/
def Pc.shared : Pc → Bool
  | .test => true
  | .dec => true
  | .store => true
  | .wrap => true
  | _ => false

/-- The statements after the enqueue is complete, and the return of `E_OK`. -/
def Pc.enqueued (c : Consts) : Pc → Bool
  | .restore => true
  | .ret_ok => true
  | .returned rc => decide (rc = c.E_OK)
  | _ => false

/-- The task executing `outqueue_put`: the next statement, the parameter `value`
and the locals `save` and `rc`. -/
structure Task where
  pc : Pc
  value : Nat
  save : Bool
  rc : Nat

/-- The queue state, the interrupt mask (`true` when interrupts are masked) and
the task. -/
structure Sys where
  st : State
  masked : Bool
  task : Task

/-- The task executes its next statement; `rc` is the status returned by
`CoWaitForSingleFlag` when that statement is the wait. -/
def task_step (c : Consts) (y : Sys) (rc : Nat) : Sys :=
  match y.task.pc with
  | .disable => { y with masked := true, task := { y.task with save := y.masked, pc := .test } }
  | .test =>
    if y.st.q.count = 0 then { y with task := { y.task with pc := .restore_wait } }
    else { y with task := { y.task with pc := .dec } }
  | .restore_wait => { y with masked := y.task.save, task := { y.task with pc := .wait } }
  | .wait => { y with task := { y.task with rc := rc, pc := .check } }
  | .check =>
    if y.task.rc ≠ c.E_OK then { y with task := { y.task with pc := .returned y.task.rc } }
    else { y with task := { y.task with pc := .redisable } }
  | .redisable => { y with masked := true, task := { y.task with save := y.masked, pc := .test } }
  | .dec =>
    { y with st := { y.st with q := { y.st.q with count := (y.st.q.count + 255) % 256 } },
             task := { y.task with pc := .store } }
  | .store =>
    { y with st := { y.st with q := { y.st.q with p_write := y.st.q.p_write + 1 },
                               mem := store y.st.mem y.st.q.p_write y.task.value },
             task := { y.task with pc := .wrap } }
  | .wrap =>
    { y with st := { y.st with q := { y.st.q with
                       p_write := if y.st.q.p_write = y.st.q.p_top then y.st.q.p_bot
                                  else y.st.q.p_write } },
             task := { y.task with pc := .restore } }
  | .restore => { y with masked := y.task.save, task := { y.task with pc := .ret_ok } }
  | .ret_ok => { y with task := { y.task with pc := .returned c.E_OK } }
  | .returned _ => y

/-- An interrupt: when interrupts are not masked the handler calls
`outqueue_getI`, and the byte it got, if any, is reported; when they are masked
nothing happens. -/
def isr_step (c : Consts) (y : Sys) : Sys × Option Nat :=
  if y.masked then (y, none)
  else
    let r := outqueue_getI c y.st
    ({ y with st := r.2 }, if r.1 = c.NO_CHAR then none else some r.1)

/-- What happens next: the task executes a statement, or an interrupt. -/
inductive Ev where
  | task (rc : Nat)
  | isr

/-- One event: the next state and the byte drained by the handler, if any. -/
def sys_step (c : Consts) (y : Sys) : Ev → Sys × Option Nat
  | .task rc => (task_step c y rc, none)
  | .isr => isr_step c y

/-- A sequence of events: the final state and the bytes drained by the handler,
in order. -/
def exec (c : Consts) : Sys → List Ev → Sys × List Nat
  | y, [] => (y, [])
  | y, e :: es =>
    ((exec c (sys_step c y e).1 es).1,
      (sys_step c y e).2.toList ++ (exec c (sys_step c y e).1 es).2)

/-- The entry of `outqueue_put(q, value, timeout)` in queue state `st` with
interrupt mask `m0`. -/
def put_entry (st : State) (value : Nat) (m0 : Bool) : Sys :=
  ⟨st, m0, ⟨.disable, value, false, 0⟩⟩

/-- The statements between the masking of interrupts and their restoration
after the update: those executed with interrupts masked. -/
def Pc.critical : Pc → Bool
  | .test => true
  | .dec => true
  | .store => true
  | .wrap => true
  | .restore => true
  | _ => false

/-- The invariant of the interleaved execution: `l` is the sequence of queued
bytes. Outside the update the queue is well formed with contents `l`; inside
it interrupts are masked, and the state is the partly updated well-formed state
`s` the update started from. -/
def PutInv (N : Nat) (y : Sys) (l : List Nat) : Prop :=
  match y.task.pc with
  | .test => y.masked = true ∧ WF N y.st ∧ contents N y.st = l
  | .restore => y.masked = true ∧ WF N y.st ∧ contents N y.st = l
  | .dec => y.masked = true ∧ WF N y.st ∧ y.st.q.count ≠ 0 ∧ contents N y.st = l
  | .store => y.masked = true ∧ ∃ s, WF N s ∧ s.q.count ≠ 0 ∧ contents N s = l
      ∧ y.st = { s with q := { s.q with count := (s.q.count + 255) % 256 } }
  | .wrap => y.masked = true ∧ ∃ s, WF N s ∧ s.q.count ≠ 0 ∧ contents N s = l
      ∧ y.st = { s with q := { s.q with count := (s.q.count + 255) % 256,
                                        p_write := s.q.p_write + 1 },
                        mem := store s.mem s.q.p_write y.task.value }
  | _ => WF N y.st ∧ contents N y.st = l

/-- The byte enqueued between two moments of the execution: `value`, when the
enqueue was completed between them. -/
def newly (c : Consts) (y y2 : Sys) : List Nat :=
  if y.task.pc.enqueued c = false ∧ y2.task.pc.enqueued c = true then [y.task.value % 256]
  else []

/-- A schedule for one put: interrupts arrive before the masking, inside the
update (where they are held off) and after the restoration. -/
def exSchedule : List Ev :=
  [.isr, .task 0, .isr, .task 0, .task 0, .isr, .task 0, .task 0, .task 0, .isr, .isr, .task 0]

/-! ## `serial_write` statement by statement, with interrupts

The statements of `serial_write` are executed one at a time, those of the
`outqueue_put` it calls included, and the interrupt handler `service_interrupt`
may run between any two of them when interrupts are not masked. The statement
`CR1 |= USART_CR1_TXEIE` is a read of `CR1` followed by a write. -/

theorem init_some (c : Consts) (fid : Nat) (s : State) (buf size : Nat)
    (hf : fid ≠ c.E_CREATE_FAIL) :
    outqueue_init c fid s buf size =
      some { s with q := { flag := fid, p_bot := buf, p_top := buf + size,
                           p_write := buf, p_read := buf, count := size } } := by
  simp [outqueue_init, hf]

theorem init_inv (c : Consts) (fid : Nat) (s0 s1 : State) (buf N : Nat)
    (h : outqueue_init c fid s0 buf N = some s1) :
    s1.q = { flag := fid, p_bot := buf, p_top := buf + N,
             p_write := buf, p_read := buf, count := N }
      ∧ s1.mem = s0.mem ∧ s1.posted = s0.posted ∧ fid ≠ c.E_CREATE_FAIL := by
  unfold outqueue_init at h
  by_cases hf : fid = c.E_CREATE_FAIL
  · simp [hf] at h
  · simp [hf] at h
    subst h
    simp [hf]

theorem init_wf (c : Consts) (fid : Nat) (s0 s1 : State) (buf N : Nat)
    (hN : 1 ≤ N) (hN2 : N ≤ 255)
    (h : outqueue_init c fid s0 buf N = some s1) :
    WF N s1 ∧ s1.q.count = N ∧ contents N s1 = [] := by
  obtain ⟨hq, -, -, -⟩ := init_inv c fid s0 s1 buf N h
  refine ⟨⟨hN, hN2, ?_, ?_, ?_, ?_, ?_⟩, ?_, ?_⟩ <;> simp [hq, contents, wrap]
  omega

theorem put_full (c : Consts) (s : State) (v t : Nat) (h0 : s.q.count = 0) :
    outqueue_put c s v t = .waiting s.q.flag 0 s := by
  simp [outqueue_put, h0]

theorem put_eq (c : Consts) (s : State) (v t : Nat) (h0 : s.q.count ≠ 0) :
    outqueue_put c s v t = .returned c.E_OK
      { s with
        q := { s.q with
               count := (s.q.count + 255) % 256,
               p_write := if s.q.p_write + 1 = s.q.p_top then s.q.p_bot else s.q.p_write + 1 },
        mem := store s.mem s.q.p_write v } := by
  simp [outqueue_put, outqueue_put_enqueue, h0]

theorem getI_eq (c : Consts) (s : State) (h : ¬ (s.q.p_write = s.q.p_read ∧ s.q.count ≠ 0)) :
    outqueue_getI c s = (load s.mem s.q.p_read,
      { s with
        q := { s.q with
               count := (s.q.count + 1) % 256,
               p_read := if s.q.p_read + 1 = s.q.p_top then s.q.p_bot else s.q.p_read + 1 },
        posted := s.posted ++ [s.q.flag] }) := by
  simp only [outqueue_getI, h, if_false]

/-- A put on a queue with a free slot returns `E_OK`, keeps the invariant and
appends its byte to the queued bytes. -/
theorem put_room (c : Consts) (N : Nat) (s : State) (v t : Nat)
    (hwf : WF N s) (h0 : s.q.count ≠ 0) :
    ∃ s2, outqueue_put c s v t = .returned c.E_OK s2 ∧ WF N s2
      ∧ s2.q.count + 1 = s.q.count
      ∧ contents N s2 = contents N s ++ [v % 256]
      ∧ s2.posted = s.posted := by
  obtain ⟨hpos, hsmall, htop, hlo, hhi, hcnt, hwr⟩ := hwf
  have hc : (s.q.count + 255) % 256 = s.q.count - 1 := by omega
  refine ⟨_, put_eq c s v t h0, ⟨hpos, hsmall, htop, hlo, hhi, ?_, ?_⟩, ?_, ?_, rfl⟩
  · simp only [hc]; omega
  · simp only [hc, hwr, htop, wrap]
    split_ifs <;> omega
  · simp only [hc]; omega
  · have hk : N - (s.q.count - 1) = (N - s.q.count) + 1 := by omega
    simp only [contents, hc, hk, List.range_succ, List.map_append, List.map_cons, List.map_nil]
    congr 1
    · apply List.map_congr_left
      intro i hi
      rw [List.mem_range] at hi
      have hne : s.q.p_bot + wrap N (s.q.p_read - s.q.p_bot + i) ≠ s.q.p_write := by
        rw [hwr]; simp only [wrap]; split_ifs <;> omega
      simp [load, store, hne]
    · simp [load, store, hwr]

theorem getI_empty (c : Consts) (N : Nat) (s : State) (hwf : WF N s) (hN : s.q.count = N) :
    outqueue_getI c s = (c.NO_CHAR, s) := by
  obtain ⟨hpos, hsmall, htop, hlo, hhi, hcnt, hwr⟩ := hwf
  have h1 : s.q.p_write = s.q.p_read := by
    rw [hwr]; simp only [wrap]; split_ifs <;> omega
  have h2 : s.q.count ≠ 0 := by omega
  simp [outqueue_getI, h1, h2]

/-- A drain of a queue that holds a byte returns the oldest queued byte, keeps
the invariant, removes that byte and posts the flag. -/
theorem getI_nonempty (c : Consts) (N : Nat) (s : State) (hwf : WF N s) (hN : s.q.count ≠ N) :
    ∃ b s2, outqueue_getI c s = (b, s2) ∧ WF N s2 ∧ b < 256
      ∧ s2.q.count = s.q.count + 1
      ∧ contents N s = b :: contents N s2
      ∧ s2.posted = s.posted ++ [s.q.flag]
      ∧ s2.mem = s.mem := by
  obtain ⟨hpos, hsmall, htop, hlo, hhi, hcnt, hwr⟩ := hwf
  have hc : (s.q.count + 1) % 256 = s.q.count + 1 := by omega
  have hcond : ¬ (s.q.p_write = s.q.p_read ∧ s.q.count ≠ 0) := by
    rw [hwr]; simp only [wrap]; split_ifs <;> omega
  refine ⟨_, _, getI_eq c s hcond, ⟨hpos, hsmall, htop, ?_, ?_, ?_, ?_⟩, ?_, ?_, ?_, rfl, rfl⟩
  · simp only; split_ifs <;> omega
  · simp only; split_ifs <;> omega
  · simp only [hc]; omega
  · simp only [hc, hwr, htop, wrap]
    split_ifs <;> omega
  · exact Nat.mod_lt _ (by norm_num)
  · simp only [hc]
  · have hk : N - s.q.count = (N - (s.q.count + 1)) + 1 := by omega
    simp only [contents, hc]
    rw [hk, List.range_succ_eq_map, List.map_cons, List.map_map]
    congr 1
    · have : s.q.p_read - s.q.p_bot < N := by omega
      simp only [wrap, Nat.add_zero, this, if_true]
      congr 1
      omega
    · apply List.map_congr_left
      intro i hi
      rw [List.mem_range] at hi
      simp only [Function.comp, htop, wrap]
      congr 2
      split_ifs <;> omega

theorem contents_length (N : Nat) (s : State) : (contents N s).length = N - s.q.count := by
  simp [contents]

/-- One call on the code matches one call on the specification's list. -/
theorem step_sim (c : Consts) (N : Nat) (s : State) (op : Op) (hwf : WF N s) :
    WF N (step c s op)
      ∧ FifoSpec.step c N (contents N s) op = (contents N (step c s op), observe c s op) := by
  have hlen := contents_length N s
  have hcnt := hwf.cnt
  have hput : ∀ v t, WF N (outqueue_put c s v t).state
      ∧ FifoSpec.put N (contents N s) v
        = (contents N (outqueue_put c s v t).state, (outqueue_put c s v t).enqueued c) := by
    intro v t
    by_cases h0 : s.q.count = 0
    · have hl : ¬ (contents N s).length < N := by omega
      simp [put_full c s v t h0, PutOutcome.state, PutOutcome.enqueued, FifoSpec.put, hl, hwf]
    · obtain ⟨s2, he, hwf2, -, hcont, -⟩ := put_room c N s v t hwf h0
      have hl : (contents N s).length < N := by omega
      simp [he, PutOutcome.state, PutOutcome.enqueued, FifoSpec.put, hl, hwf2, hcont]
  cases op with
  | put v t =>
    obtain ⟨h1, h2⟩ := hput v t
    simp [step, observe, FifoSpec.step, h1, h2]
  | resume v t rc =>
    by_cases hrc : rc = c.E_OK
    · obtain ⟨h1, h2⟩ := hput v t
      simp [step, observe, FifoSpec.step, outqueue_put_resume, hrc, h1, h2]
    · simp [step, observe, FifoSpec.step, outqueue_put_resume, hrc, PutOutcome.state,
        PutOutcome.enqueued, hwf]
  | getI =>
    by_cases hN : s.q.count = N
    · have hnil : contents N s = [] := by
        apply List.eq_nil_of_length_eq_zero; omega
      simp [step, observe, FifoSpec.step, getI_empty c N s hwf hN, hnil, FifoSpec.drainOne, hwf]
    · obtain ⟨b, s2, he, hwf2, -, -, hcont, -, -⟩ := getI_nonempty c N s hwf hN
      simp [step, observe, FifoSpec.step, he, hcont, FifoSpec.drainOne, hwf2]

theorem run_wf (c : Consts) (N : Nat) (ops : List Op) (s : State) (hwf : WF N s) :
    WF N (run c s ops) := by
  induction ops generalizing s with
  | nil => exact hwf
  | cons op ops ih => exact ih _ (step_sim c N s op hwf).1

theorem trace_sim (c : Consts) (N : Nat) (ops : List Op) (s : State) (hwf : WF N s) :
    trace c s ops = FifoSpec.trace c N (contents N s) ops := by
  induction ops generalizing s with
  | nil => rfl
  | cons op ops ih =>
    obtain ⟨h1, h2⟩ := step_sim c N s op hwf
    simp [trace, FifoSpec.trace, h2, ih _ h1]

/-- Bytes are conserved: what was queued plus what was put is what was drained
plus what is still queued. -/
theorem drained_conserve (c : Consts) (N : Nat) (hc : 255 < c.NO_CHAR) (ops : List Op) (s : State)
    (hwf : WF N s) (hr : roomyPuts c s ops = true) :
    contents N s ++ putBytes ops = drained c s ops ++ contents N (run c s ops) := by
  induction ops generalizing s with
  | nil => simp [putBytes, drained, run]
  | cons op ops ih =>
    cases op with
    | put v t =>
      simp only [roomyPuts, Bool.and_eq_true, decide_eq_true_eq] at hr
      obtain ⟨s2, he, hwf2, -, hcont, -⟩ := put_room c N s v t hwf hr.1
      have hs : step c s (.put v t) = s2 := by simp [step, he, PutOutcome.state]
      have := ih s2 hwf2 (hs ▸ hr.2)
      simp only [putBytes, drained, run, hs]
      rw [← this, hcont]
      simp
    | resume v t rc => simp [roomyPuts] at hr
    | getI =>
      simp only [roomyPuts] at hr
      by_cases hN : s.q.count = N
      · have he := getI_empty c N s hwf hN
        have hs : step c s .getI = s := by simp [step, he]
        have := ih s hwf (hs ▸ hr)
        simp only [putBytes, drained, run, hs, he, if_true]
        exact this
      · obtain ⟨b, s2, he, hwf2, hb, -, hcont, -, -⟩ := getI_nonempty c N s hwf hN
        have hs : step c s .getI = s2 := by simp [step, he]
        have := ih s2 hwf2 (hs ▸ hr)
        have hne : b ≠ c.NO_CHAR := by omega
        simp only [putBytes, drained, run, hs, he, hne, if_false]
        rw [hcont, List.cons_append, this, List.cons_append]

theorem run_append (c : Consts) (a b : List Op) (s : State) :
    run c s (a ++ b) = run c (run c s a) b := by
  induction a generalizing s with
  | nil => rfl
  | cons op a ih => simp [run, ih]

theorem trace_append (c : Consts) (a b : List Op) (s : State) :
    trace c s (a ++ b) = trace c s a ++ trace c (run c s a) b := by
  induction a generalizing s with
  | nil => rfl
  | cons op a ih => simp [run, trace, ih]

/-- Puts that fit into the free slots all return `E_OK` and append their bytes. -/
theorem puts_fit (c : Consts) (N t : Nat) (bs : List Nat) (s : State) (hwf : WF N s)
    (hfit : bs.length ≤ s.q.count) :
    WF N (run c s (bs.map (fun b => Op.put b t)))
      ∧ (run c s (bs.map (fun b => Op.put b t))).q.count + bs.length = s.q.count
      ∧ contents N (run c s (bs.map (fun b => Op.put b t)))
          = contents N s ++ bs.map (fun b => b % 256)
      ∧ trace c s (bs.map (fun b => Op.put b t)) = bs.map (fun _ => Obs.put true)
      ∧ (run c s (bs.map (fun b => Op.put b t))).posted = s.posted := by
  induction bs generalizing s with
  | nil => simp [run, trace, hwf]
  | cons b bs ih =>
    have h0 : s.q.count ≠ 0 := by simp at hfit; omega
    obtain ⟨s2, he, hwf2, hcnt, hcont, hpost⟩ := put_room c N s b t hwf h0
    have hs : step c s (.put b t) = s2 := by simp [step, he, PutOutcome.state]
    have hfit2 : bs.length ≤ s2.q.count := by simp at hfit; omega
    obtain ⟨i1, i2, i3, i4, i5⟩ := ih s2 hwf2 hfit2
    simp only [List.map_cons, run, trace, hs, List.length_cons]
    refine ⟨i1, by omega, ?_, ?_, by rw [i5, hpost]⟩
    · rw [i3, hcont]; simp
    · rw [i4]; simp [observe, he, PutOutcome.enqueued]

/-- Draining as many times as bytes are queued returns the queued bytes in
order and leaves the queue empty. -/
theorem gets_all (c : Consts) (N : Nat) (l : List Nat) (s : State) (hwf : WF N s)
    (hl : contents N s = l) :
    WF N (run c s (List.replicate l.length Op.getI))
      ∧ (run c s (List.replicate l.length Op.getI)).q.count = N
      ∧ trace c s (List.replicate l.length Op.getI) = l.map Obs.got := by
  induction l generalizing s with
  | nil =>
    have hlen := contents_length N s
    have hcnt := hwf.cnt
    rw [hl] at hlen
    simp only [List.length_nil] at hlen
    refine ⟨by simpa [run] using hwf, ?_, by simp [trace]⟩
    simp only [List.length_nil, List.replicate_zero, run]; omega
  | cons b l ih =>
    have hlen := contents_length N s
    rw [hl] at hlen
    have hN : s.q.count ≠ N := by simp at hlen; omega
    obtain ⟨b2, s2, he, hwf2, -, -, hcont, -, -⟩ := getI_nonempty c N s hwf hN
    rw [hl] at hcont
    injection hcont with hb hrest
    have hs : step c s .getI = s2 := by simp [step, he]
    obtain ⟨i1, i2, i3⟩ := ih s2 hwf2 hrest.symm
    simp only [List.length_cons, List.replicate_succ, run, trace, hs, List.map_cons]
    refine ⟨i1, i2, ?_⟩
    rw [i3]; simp [observe, he, hb]

theorem reachable_wf (c : Consts) (N : Nat) (s : State) (hN : 1 ≤ N) (hN8 : N ≤ 255)
    (hr : Reachable c N s) : WF N s := by
  obtain ⟨fid, s0, s1, buf, ops, hinit, rfl⟩ := hr
  exact run_wf c N ops s1 (init_wf c fid s0 s1 buf N hN hN8 hinit).1

theorem step_flag (c : Consts) (s : State) (op : Op) : (step c s op).q.flag = s.q.flag := by
  cases op with
  | put v t =>
    by_cases h0 : s.q.count = 0
    · simp [step, put_full c s v t h0, PutOutcome.state]
    · simp [step, put_eq c s v t h0, PutOutcome.state]
  | resume v t rc =>
    by_cases hrc : rc = c.E_OK
    · by_cases h0 : s.q.count = 0
      · simp [step, outqueue_put_resume, hrc, put_full c s v t h0, PutOutcome.state]
      · simp [step, outqueue_put_resume, hrc, put_eq c s v t h0, PutOutcome.state]
    · simp [step, outqueue_put_resume, hrc, PutOutcome.state]
  | getI =>
    by_cases h : s.q.p_write = s.q.p_read ∧ s.q.count ≠ 0
    · simp [step, outqueue_getI, h]
    · simp [step, getI_eq c s h]

theorem run_flag (c : Consts) (ops : List Op) (s : State) : (run c s ops).q.flag = s.q.flag := by
  induction ops generalizing s with
  | nil => rfl
  | cons op ops ih => simp [run, ih, step_flag]

theorem step_bounds (c : Consts) (s : State) (op : Op) :
    (step c s op).q.p_bot = s.q.p_bot ∧ (step c s op).q.p_top = s.q.p_top := by
  cases op with
  | put v t =>
    by_cases h0 : s.q.count = 0
    · simp [step, put_full c s v t h0, PutOutcome.state]
    · simp [step, put_eq c s v t h0, PutOutcome.state]
  | resume v t rc =>
    by_cases hrc : rc = c.E_OK
    · by_cases h0 : s.q.count = 0
      · simp [step, outqueue_put_resume, hrc, put_full c s v t h0, PutOutcome.state]
      · simp [step, outqueue_put_resume, hrc, put_eq c s v t h0, PutOutcome.state]
    · simp [step, outqueue_put_resume, hrc, PutOutcome.state]
  | getI =>
    by_cases h : s.q.p_write = s.q.p_read ∧ s.q.count ≠ 0
    · simp [step, outqueue_getI, h]
    · simp [step, getI_eq c s h]

theorem run_bounds (c : Consts) (ops : List Op) (s : State) :
    (run c s ops).q.p_bot = s.q.p_bot ∧ (run c s ops).q.p_top = s.q.p_top := by
  induction ops generalizing s with
  | nil => exact ⟨rfl, rfl⟩
  | cons op ops ih =>
    obtain ⟨h1, h2⟩ := step_bounds c s op
    obtain ⟨i1, i2⟩ := ih (step c s op)
    exact ⟨by simp only [run]; rw [i1, h1], by simp only [run]; rw [i2, h2]⟩

/-- The write cursor of a well-formed queue lies inside the storage. -/
theorem wf_write_bounds (N : Nat) (s : State) (hwf : WF N s) :
    s.q.p_bot ≤ s.q.p_write ∧ s.q.p_write < s.q.p_top := by
  obtain ⟨hpos, hsmall, htop, hlo, hhi, hcnt, hwr⟩ := hwf
  rw [hwr, htop]
  simp only [wrap]
  split_ifs <;> omega

/-- A cursor inside the storage that is advanced and wrapped as in the code has
advanced by one slot modulo `N`. -/
theorem advance_mod (N bot p : Nat) (hN : 1 ≤ N) (hlo : bot ≤ p) (hhi : p < bot + N) :
    (if p + 1 = bot + N then bot else p + 1) = bot + (p - bot + 1) % N := by
  by_cases h : p + 1 = bot + N
  · have : p - bot + 1 = N := by omega
    simp [h, this]
  · have : (p - bot + 1) % N = p - bot + 1 := Nat.mod_eq_of_lt (by omega)
    simp only [h, if_false, this]
    omega

/-- On a well-formed queue the drain loop returns within `k + 1` executions of
its body, `k` being the number of queued bytes, whatever the status reads are;
it leaves the `serial_t` fields alone, keeps the queue well formed and only
appends to the posted flags. -/
theorem loop_returns (hw : Hw) (c : Consts) (SR : Nat → Nat) (N : Nat) :
    ∀ (l : List Nat) (w : Port) (fuel i sr : Nat), WF N w.out → contents N w.out = l →
      l.length + 1 ≤ fuel →
      ∃ w2 n, service_interrupt_loop hw c SR fuel i sr w = some (w2, n)
        ∧ n ≤ l.length + 1 ∧ w2.serial = w.serial ∧ WF N w2.out
        ∧ ∃ extra, w2.out.posted = w.out.posted ++ extra := by
  intro l
  induction l with
  | nil =>
    intro w fuel i sr hwf hl hfuel
    obtain ⟨f, rfl⟩ : ∃ f, fuel = f + 1 := ⟨fuel - 1, by omega⟩
    by_cases hsr : sr &&& hw.USART_SR_TXE = 0
    · exact ⟨w, 0, by simp [service_interrupt_loop, hsr], by omega, rfl, hwf, [], by simp⟩
    · have hlen := contents_length N w.out
      rw [hl] at hlen
      have hcnt := hwf.cnt
      have hfull : w.out.q.count = N := by simp at hlen; omega
      have he := getI_empty c N w.out hwf hfull
      exact ⟨txeie_off hw { w with out := w.out }, 1,
        by simp [service_interrupt_loop, hsr, he], by omega, rfl, hwf, [], by simp [txeie_off, setRegs]⟩
  | cons b l ih =>
    intro w fuel i sr hwf hl hfuel
    obtain ⟨f, rfl⟩ : ∃ f, fuel = f + 1 := ⟨fuel - 1, by omega⟩
    by_cases hsr : sr &&& hw.USART_SR_TXE = 0
    · exact ⟨w, 0, by simp [service_interrupt_loop, hsr], by omega, rfl, hwf, [], by simp⟩
    · have hlen := contents_length N w.out
      rw [hl] at hlen
      have hN : w.out.q.count ≠ N := by simp at hlen; omega
      obtain ⟨b2, s2, he, hwf2, -, -, hcont, hpost, -⟩ := getI_nonempty c N w.out hwf hN
      rw [hl] at hcont
      injection hcont with hb hrest
      by_cases hno : b2 = c.NO_CHAR
      · exact ⟨txeie_off hw { w with out := s2 }, 1,
          by simp [service_interrupt_loop, hsr, he, hno], by simp, rfl, hwf2,
          [w.out.q.flag], by simp [txeie_off, setRegs, hpost]⟩
      · simp only [List.length_cons] at hfuel
        obtain ⟨w3, n, hloop, hn, hser, hwf3, extra, hextra⟩ :=
          ih (write_DR { w with out := s2 } b2) f (i + 1) (SR i % 65536) hwf2 hrest.symm
            (by omega)
        refine ⟨w3, n + 1, ?_, by simp; omega, hser, hwf3, w.out.q.flag :: extra, ?_⟩
        · simp only [service_interrupt_loop, hsr, he, hno, if_false]
          rw [hloop]
          rfl
        · rw [hextra]
          simp [write_DR, setRegs, hpost]

/-- The invocation returns on a well-formed queue, with the effect of the
receive part on the inbound slot. -/
theorem service_interrupt_returns (hw : Hw) (c : Consts) (SR : Nat → Nat) (DR N fuel : Nat)
    (w : Port) (hwf : WF N w.out) (hfuel : N - w.out.q.count + 1 ≤ fuel) :
    ∃ w2 n, service_interrupt hw c fuel SR DR w = some (w2, n)
      ∧ n ≤ N - w.out.q.count + 1 ∧ WF N w2.out
      ∧ (SR 0 % 65536 &&& hw.USART_SR_RXNE ≠ 0 →
          w2.serial = { w.serial with rx_char := DR % 65536 }
            ∧ ∃ extra, w2.out.posted = w.out.posted ++ [w.serial.rx_flag] ++ extra)
      ∧ (SR 0 % 65536 &&& hw.USART_SR_RXNE = 0 →
          w2.serial = w.serial ∧ ∃ extra, w2.out.posted = w.out.posted ++ extra) := by
  have hlen := contents_length N w.out
  have hcnt := hwf.cnt
  by_cases hrx : SR 0 % 65536 &&& hw.USART_SR_RXNE = 0
  · obtain ⟨w2, n, hloop, hn, hser, hwf2, extra, hextra⟩ :=
      loop_returns hw c SR N _ w fuel 1 (SR 0 % 65536) hwf rfl (by omega)
    refine ⟨w2, n, by simp [service_interrupt, hrx, hloop], by omega, hwf2,
      fun h => absurd hrx h, fun _ => ⟨hser, extra, hextra⟩⟩
  · have hwf1 : WF N (publish_rx w (DR % 65536)).out :=
      ⟨hwf.pos, hwf.small, hwf.top, hwf.rd_lo, hwf.rd_hi, hwf.cnt, hwf.wr⟩
    have hlen1 : (contents N (publish_rx w (DR % 65536)).out).length = N - w.out.q.count := by
      rw [contents_length]; rfl
    obtain ⟨w2, n, hloop, hn, hser, hwf2, extra, hextra⟩ :=
      loop_returns hw c SR N _ (publish_rx w (DR % 65536)) fuel 1 (SR 0 % 65536) hwf1 rfl
        (by omega)
    refine ⟨w2, n, by simp [service_interrupt, hrx, hloop], by omega, hwf2,
      fun _ => ⟨hser, extra, hextra⟩, fun h => absurd h hrx⟩

/-- The chain of comparisons of `serial_start` reaches its last `else` exactly for
a handle that is none of the five devices. -/
theorem enable_none_iff (hw : Hw) (w : Port) (u : Nat) :
    serial_start_enable hw w u = none
      ↔ (u ≠ hw.USART1 ∧ u ≠ hw.USART2 ∧ u ≠ hw.USART3 ∧ u ≠ hw.UART4 ∧ u ≠ hw.UART5) := by
  unfold serial_start_enable
  constructor
  · intro h
    split_ifs at h with h1 h2 h3 h4 h5
    exact ⟨h1, h2, h3, h4, h5⟩
  · rintro ⟨h1, h2, h3, h4, h5⟩
    simp [h1, h2, h3, h4, h5]

/-- Once a device has matched, `serial_start` does not stop at `HALT()`. -/
theorem start_no_halt (hw : Hw) (c : Consts) (mid rxfid qfid : Nat) (w : Port) (u speed : Nat)
    (w2 : Port)
    (h : serial_start_enable hw
      { w with serial := { w.serial with device := u, speed := speed, rx_char := c.NO_CHAR } } u
        = some w2) (w3 : Port) :
    serial_start hw c mid rxfid qfid w u speed ≠ .stopped .HALT w3 := by
  simp only [serial_start, h]
  split
  · simp
  · split_ifs
    · simp
    · simp
    · split <;> simp

/-- The drain loop when `TXE` is set on the current and the next status reads,
`m` reads in all, and clear on the one after: it writes the first `min m k` of the
`k` queued bytes to `DR` and clears `TXEIE` exactly when `k < m`. -/
theorem loop_drain (hw : Hw) (c : Consts) (SR : Nat → Nat) (N : Nat) (hc : 255 < c.NO_CHAR) :
    ∀ (m : Nat) (l : List Nat) (w : Port) (fuel i0 : Nat), WF N w.out → contents N w.out = l →
      l.length + 1 ≤ fuel →
      (∀ j, j < m → SR (i0 + j) % 65536 &&& hw.USART_SR_TXE ≠ 0) →
      SR (i0 + m) % 65536 &&& hw.USART_SR_TXE = 0 →
      ∃ w2 n, service_interrupt_loop hw c SR fuel (i0 + 1) (SR i0 % 65536) w = some (w2, n)
        ∧ n = min m (l.length + 1)
        ∧ DrainEffect hw N w w2 (min m l.length) (decide (l.length < m)) := by
  intro m
  induction m with
  | zero =>
    intro l w fuel i0 hwf hl hfuel _ hclr
    obtain ⟨f, rfl⟩ : ∃ f, fuel = f + 1 := ⟨fuel - 1, by omega⟩
    simp only [Nat.add_zero] at hclr
    refine ⟨w, 0, by simp [service_interrupt_loop, hclr], by simp, ?_⟩
    exact ⟨rfl, hwf, rfl, rfl, rfl, by simp, by simp, by simp, by simp, rfl, fun _ _ => rfl,
      rfl, rfl, rfl, rfl, rfl⟩
  | succ m ih =>
    intro l w fuel i0 hwf hl hfuel hset hclr
    obtain ⟨f, rfl⟩ : ∃ f, fuel = f + 1 := ⟨fuel - 1, by omega⟩
    have hsr : ¬ (SR i0 % 65536 &&& hw.USART_SR_TXE = 0) := by
      have := hset 0 (by omega)
      simpa using this
    have hlen := contents_length N w.out
    rw [hl] at hlen
    cases l with
    | nil =>
      have hcnt := hwf.cnt
      have hfull : w.out.q.count = N := by simp at hlen; omega
      have he := getI_empty c N w.out hwf hfull
      refine ⟨txeie_off hw { w with out := w.out }, 1,
        by simp [service_interrupt_loop, hsr, he], by simp, ?_⟩
      refine ⟨rfl, hwf, rfl, rfl, rfl, ?_, ?_, ?_, ?_, ?_, ?_, rfl, rfl, rfl, rfl, rfl⟩
      · show w.out.posted = _
        simp
      · simp [txeie_off, setRegs]
      · show contents N w.out = _
        simp [hl]
      · simp [txeie_off, setRegs]
      · simp [txeie_off, setRegs]
      · intro a ha
        simp [txeie_off, setRegs, ha]
    | cons b l =>
      have hN : w.out.q.count ≠ N := by simp at hlen; omega
      obtain ⟨b2, s2, he, hwf2, hb2, -, hcont, hpost, hmem⟩ :=
        getI_nonempty c N w.out hwf hN
      rw [hl] at hcont
      injection hcont with hb hrest
      have hno : b2 ≠ c.NO_CHAR := by omega
      have hflag : s2.q.flag = w.out.q.flag := by
        have := step_flag c w.out .getI
        simpa [step, he] using this
      simp only [List.length_cons] at hfuel
      obtain ⟨w3, n, hloop, hn, hd⟩ :=
        ih l (write_DR { w with out := s2 } b2) f (i0 + 1) hwf2 hrest.symm (by omega)
          (fun j hj => by
            have := hset (j + 1) (by omega)
            rwa [show i0 + (j + 1) = i0 + 1 + j by omega] at this)
          (by rwa [show i0 + (m + 1) = i0 + 1 + m by omega] at hclr)
      refine ⟨w3, n + 1, ?_, ?_, ?_⟩
      · simp only [service_interrupt_loop, hsr, he, hno, if_false]
        rw [hloop]
        rfl
      · rw [hn]; simp only [List.length_cons]; omega
      · obtain ⟨d1, d2, d3, d4, dbot, d5, d6, d7, d8, d9, d10, d11, d12, d13, d14, d15⟩ := hd
        have hdev : (write_DR { w with out := s2 } b2).serial.device = w.serial.device := rfl
        have hout : (write_DR { w with out := s2 } b2).out = s2 := rfl
        have hbot : s2.q.p_bot = w.out.q.p_bot := by
          have := (step_bounds c w.out .getI).1
          simpa [step, he] using this
        rw [hdev] at d6 d8 d9 d10
        rw [hout] at d3 d4 dbot d5 d6 d7
        have hj : min (m + 1) (b :: l).length = min m l.length + 1 := by
          simp only [List.length_cons]; omega
        rw [hj]
        refine ⟨d1, d2, by rw [d3, hmem], by rw [d4, hflag], by rw [dbot, hbot],
          ?_, ?_, ?_, ?_, ?_, ?_, d11, d12, d13, d14, d15⟩
        · rw [d5, hpost, hflag, List.replicate_succ]; simp
        · rw [d6, hl, ← hrest, hb]; simp [write_DR, setRegs]
        · rw [d7, hl, ← hrest]; simp
        · rw [d8]; simp [write_DR, setRegs]
        · rw [d9]; simp [write_DR, setRegs]
        · intro a ha
          rw [d10 a ha]; simp [write_DR, setRegs, ha]

/-- The bits of `andNot x m`: those of `x` outside `m`. -/
theorem andNot_testBit (x m i : Nat) :
    (andNot x m).testBit i = (x.testBit i && !m.testBit i) := by
  simp only [andNot, Nat.testBit_xor, Nat.testBit_and]
  cases x.testBit i <;> cases m.testBit i <;> rfl

/-- The invocation when `TXE` is set on the first `m` status reads and clear on the
next: the effect of draining `min m k` bytes on the port left by the receive
part. -/
theorem service_interrupt_drain (hw : Hw) (c : Consts) (SR : Nat → Nat) (DR N m fuel : Nat)
    (w : Port) (hc : 255 < c.NO_CHAR) (hwf : WF N w.out)
    (hfuel : N - w.out.q.count + 1 ≤ fuel)
    (hset : ∀ j, j < m → SR j % 65536 &&& hw.USART_SR_TXE ≠ 0)
    (hclr : SR m % 65536 &&& hw.USART_SR_TXE = 0) :
    ∃ w1 w2 n, service_interrupt hw c fuel SR DR w = some (w2, n)
      ∧ (w1 = w ∨ w1 = publish_rx w (DR % 65536))
      ∧ n = min m (N - w.out.q.count + 1)
      ∧ DrainEffect hw N w1 w2 (min m (N - w.out.q.count))
          (decide (N - w.out.q.count < m)) := by
  have hlen := contents_length N w.out
  by_cases hrx : SR 0 % 65536 &&& hw.USART_SR_RXNE = 0
  · obtain ⟨w2, n, hloop, hn, hd⟩ :=
      loop_drain hw c SR N hc m _ w fuel 0 hwf rfl (by omega)
        (fun j hj => by simpa using hset j hj) (by simpa using hclr)
    rw [hlen] at hn hd
    exact ⟨w, w2, n, by simpa [service_interrupt, hrx] using hloop, Or.inl rfl, hn, hd⟩
  · have hwf1 : WF N (publish_rx w (DR % 65536)).out :=
      ⟨hwf.pos, hwf.small, hwf.top, hwf.rd_lo, hwf.rd_hi, hwf.cnt, hwf.wr⟩
    have hlen1 : (contents N (publish_rx w (DR % 65536)).out).length = N - w.out.q.count := by
      rw [contents_length]; rfl
    obtain ⟨w2, n, hloop, hn, hd⟩ :=
      loop_drain hw c SR N hc m _ (publish_rx w (DR % 65536)) fuel 0 hwf1 rfl (by omega)
        (fun j hj => by simpa using hset j hj) (by simpa using hclr)
    rw [hlen1] at hn hd
    exact ⟨_, w2, n, by simpa [service_interrupt, hrx] using hloop, Or.inr rfl, hn, hd⟩

theorem putInv_masked (N : Nat) (y : Sys) (l : List Nat) (h : PutInv N y l)
    (hcrit : y.task.pc.critical = true) : y.masked = true := by
  obtain ⟨st, masked, ⟨pc, value, save, rc0⟩⟩ := y
  cases pc <;> simp [PutInv, Pc.critical] at h hcrit ⊢ <;> exact h.1

theorem putInv_open (N : Nat) (y : Sys) (l : List Nat) (hcrit : y.task.pc.critical = false) :
    PutInv N y l ↔ (WF N y.st ∧ contents N y.st = l) := by
  obtain ⟨st, masked, ⟨pc, value, save, rc0⟩⟩ := y
  cases pc <;> simp [PutInv, Pc.critical] at hcrit ⊢

/-- An interrupt keeps the invariant, and the byte it drains is the oldest. -/
theorem isr_step_inv (c : Consts) (N : Nat) (hc : 255 < c.NO_CHAR) (y : Sys) (l : List Nat)
    (h : PutInv N y l) :
    ∃ l2, PutInv N (isr_step c y).1 l2 ∧ l = (isr_step c y).2.toList ++ l2
      ∧ (isr_step c y).1.task = y.task := by
  obtain ⟨st, masked, task⟩ := y
  cases masked with
  | true => exact ⟨l, by simpa [isr_step] using h, by simp [isr_step], by simp [isr_step]⟩
  | false =>
    have hcrit : task.pc.critical = false := by
      by_contra hcr
      have := putInv_masked N ⟨st, false, task⟩ l h (by simpa using hcr)
      simp at this
    obtain ⟨hwf, hcont⟩ := (putInv_open N ⟨st, false, task⟩ l hcrit).1 h
    simp only at hwf hcont
    by_cases hN : st.q.count = N
    · have he := getI_empty c N st hwf hN
      exact ⟨l, by simpa [isr_step, he] using h, by simp [isr_step, he], by simp [isr_step]⟩
    · obtain ⟨b, s2, he, hwf2, hb, -, hcont2, -, -⟩ := getI_nonempty c N st hwf hN
      have hne : b ≠ c.NO_CHAR := by omega
      refine ⟨contents N s2, ?_, by simp [isr_step, he, hne, ← hcont, hcont2],
        by simp [isr_step]⟩
      have h1 : (isr_step c ⟨st, false, task⟩).1 = ⟨s2, false, task⟩ := by simp [isr_step, he]
      rw [h1]
      exact (putInv_open N ⟨s2, false, task⟩ _ hcrit).2 ⟨hwf2, rfl⟩

/-- A statement of the task keeps the invariant; the statement that completes
the update appends the byte to the queued bytes. -/
theorem task_step_inv (c : Consts) (N : Nat) (y : Sys) (l : List Nat) (rc : Nat)
    (h : PutInv N y l) :
    ∃ l2, PutInv N (task_step c y rc) l2 ∧ l ++ newly c y (task_step c y rc) = l2
      ∧ (task_step c y rc).task.value = y.task.value
      ∧ (y.task.pc.enqueued c = true → (task_step c y rc).task.pc.enqueued c = true) := by
  obtain ⟨st, masked, ⟨pc, value, save, rc0⟩⟩ := y
  cases pc with
  | disable =>
    simp only [PutInv] at h
    exact ⟨l, by simpa [task_step, PutInv] using h, by simp [task_step, newly, Pc.enqueued],
      rfl, by simp [Pc.enqueued]⟩
  | test =>
    simp only [PutInv] at h
    by_cases h0 : st.q.count = 0
    · exact ⟨l, by simpa [task_step, PutInv, h0] using h.2,
        by simp [task_step, newly, Pc.enqueued, h0], by simp [task_step, h0],
        by simp [Pc.enqueued]⟩
    · exact ⟨l, by simpa [task_step, PutInv, h0] using ⟨h.1, h.2.1, h.2.2⟩,
        by simp [task_step, newly, Pc.enqueued, h0], by simp [task_step, h0],
        by simp [Pc.enqueued]⟩
  | restore_wait =>
    simp only [PutInv] at h
    exact ⟨l, by simpa [task_step, PutInv] using h, by simp [task_step, newly, Pc.enqueued],
      rfl, by simp [Pc.enqueued]⟩
  | wait =>
    simp only [PutInv] at h
    exact ⟨l, by simpa [task_step, PutInv] using h, by simp [task_step, newly, Pc.enqueued],
      rfl, by simp [Pc.enqueued]⟩
  | check =>
    simp only [PutInv] at h
    by_cases hrc : rc0 = c.E_OK
    · exact ⟨l, by simpa [task_step, PutInv, hrc] using h,
        by simp [task_step, newly, Pc.enqueued, hrc], by simp [task_step, hrc],
        by simp [Pc.enqueued]⟩
    · exact ⟨l, by simpa [task_step, PutInv, hrc] using h,
        by simp [task_step, newly, Pc.enqueued, hrc], by simp [task_step, hrc],
        by simp [Pc.enqueued]⟩
  | redisable =>
    simp only [PutInv] at h
    exact ⟨l, by simpa [task_step, PutInv] using h, by simp [task_step, newly, Pc.enqueued],
      rfl, by simp [Pc.enqueued]⟩
  | dec =>
    simp only [PutInv] at h
    obtain ⟨hm, hwf, h0, hcont⟩ := h
    refine ⟨l, ?_, by simp [task_step, newly, Pc.enqueued], rfl, by simp [Pc.enqueued]⟩
    simp only [task_step, PutInv]
    exact ⟨hm, st, hwf, h0, hcont, rfl⟩
  | store =>
    simp only [PutInv] at h
    obtain ⟨hm, s, hwf, h0, hcont, hst⟩ := h
    subst hst
    refine ⟨l, ?_, by simp [task_step, newly, Pc.enqueued], rfl, by simp [Pc.enqueued]⟩
    simp only [task_step, PutInv]
    exact ⟨hm, s, hwf, h0, hcont, rfl⟩
  | wrap =>
    simp only [PutInv] at h
    obtain ⟨hm, s, hwf, h0, hcont, hst⟩ := h
    subst hst
    obtain ⟨s2, he, hwf2, -, hcont2, -⟩ := put_room c N s value 0 hwf h0
    have heq := put_eq c s value 0 h0
    rw [he] at heq
    injection heq with _ hs2
    refine ⟨l ++ [value % 256], ?_, by simp [task_step, newly, Pc.enqueued], rfl,
      by simp [Pc.enqueued]⟩
    simp only [task_step, PutInv]
    subst hs2
    rw [← hcont]
    exact ⟨hm, hwf2, hcont2⟩
  | restore =>
    simp only [PutInv] at h
    exact ⟨l, by simpa [task_step, PutInv] using h.2, by simp [task_step, newly, Pc.enqueued],
      rfl, by simp [task_step, Pc.enqueued]⟩
  | ret_ok =>
    simp only [PutInv] at h
    exact ⟨l, by simpa [task_step, PutInv] using h, by simp [task_step, newly, Pc.enqueued],
      rfl, by simp [task_step, Pc.enqueued]⟩
  | returned r =>
    exact ⟨l, by simpa [task_step] using h, by simp [task_step, newly], rfl,
      by simp [task_step]⟩

/-- One event keeps the invariant and conserves the bytes. -/
theorem sys_step_inv (c : Consts) (N : Nat) (hc : 255 < c.NO_CHAR) (y : Sys) (l : List Nat)
    (ev : Ev) (h : PutInv N y l) :
    ∃ l2, PutInv N (sys_step c y ev).1 l2
      ∧ l ++ newly c y (sys_step c y ev).1 = (sys_step c y ev).2.toList ++ l2
      ∧ (sys_step c y ev).1.task.value = y.task.value
      ∧ (y.task.pc.enqueued c = true → (sys_step c y ev).1.task.pc.enqueued c = true) := by
  cases ev with
  | task rc =>
    obtain ⟨l2, h1, h2, h3, h4⟩ := task_step_inv c N y l rc h
    exact ⟨l2, h1, by simpa [sys_step] using h2, h3, h4⟩
  | isr =>
    obtain ⟨l2, h1, h2, h3⟩ := isr_step_inv c N hc y l h
    refine ⟨l2, h1, ?_, by simp only [sys_step]; rw [h3], by simp only [sys_step]; rw [h3]; exact id⟩
    simp only [sys_step, newly, h3]
    rw [h2]
    by_cases ha : y.task.pc.enqueued c = true <;> simp [ha]

/-- A sequence of events keeps the invariant and conserves the bytes. -/
theorem exec_inv (c : Consts) (N : Nat) (hc : 255 < c.NO_CHAR) :
    ∀ (evs : List Ev) (y : Sys) (l : List Nat), PutInv N y l →
      ∃ lF, PutInv N (exec c y evs).1 lF
        ∧ l ++ newly c y (exec c y evs).1 = (exec c y evs).2 ++ lF
        ∧ (exec c y evs).1.task.value = y.task.value
        ∧ (y.task.pc.enqueued c = true → (exec c y evs).1.task.pc.enqueued c = true) := by
  intro evs
  induction evs with
  | nil =>
    intro y l h
    refine ⟨l, h, ?_, rfl, id⟩
    simp only [exec, newly]
    by_cases ha : y.task.pc.enqueued c = true <;> simp [ha]
  | cons e es ih =>
    intro y l h
    obtain ⟨l1, h1, h2, h3, h4⟩ := sys_step_inv c N hc y l e h
    obtain ⟨lF, g1, g2, g3, g4⟩ := ih (sys_step c y e).1 l1 h1
    refine ⟨lF, g1, ?_, by simp only [exec]; rw [g3, h3], fun ha => g4 (h4 ha)⟩
    simp only [exec]
    rw [List.append_assoc, ← g2, ← List.append_assoc, ← h2]
    simp only [newly, h3]
    by_cases ha : y.task.pc.enqueued c = true
    · have hb := h4 ha
      have hd := g4 hb
      simp [ha, hb, hd]
    · by_cases hb : (sys_step c y e).1.task.pc.enqueued c = true
      · have hd := g4 hb
        simp [ha, hb, hd]
      · by_cases hd : (exec c (sys_step c y e).1 es).1.task.pc.enqueued c = true
        · simp [ha, hb, hd]
        · simp [ha, hb, hd]

theorem putInv_count (N : Nat) (y : Sys) (l : List Nat) (h : PutInv N y l) :
    y.st.q.count ≤ N := by
  obtain ⟨st, masked, ⟨pc, value, save, rc0⟩⟩ := y
  cases pc <;> simp only [PutInv] at h
  case store =>
    obtain ⟨-, s, hwf, h0, -, hst⟩ := h
    have h1 := hwf.cnt
    have h2 := hwf.small
    subst hst
    show (s.q.count + 255) % 256 ≤ N
    omega
  case wrap =>
    obtain ⟨-, s, hwf, h0, -, hst⟩ := h
    have h1 := hwf.cnt
    have h2 := hwf.small
    subst hst
    show (s.q.count + 255) % 256 ≤ N
    omega
  case test => exact h.2.1.cnt
  case restore => exact h.2.1.cnt
  case dec => exact h.2.1.cnt
  all_goals exact h.1.cnt

/-- C1: the outbound ring buffer refines a bounded FIFO list. For every capacity
`1 ≤ N` (a `uint8_t`) and every sequence of calls from the state produced by
`outqueue_init` with size `N`, every call observes what the same call observes on
the bounded FIFO list of the specification, so each `outqueue_getI` that returns
a byte returns the oldest byte put and not yet drained; and when the sequence is
an interleaving of `outqueue_getI` calls and `outqueue_put` calls each made when
`count > 0`, the drained bytes are a prefix of the put bytes. -/
theorem C1_outqueue_refines_fifo (c : Consts) (N fid buf : Nat) (s0 s1 : State) (ops : List Op)
    (hN : 1 ≤ N) (hN8 : N ≤ 255) (hc : 255 < c.NO_CHAR)
    (hinit : outqueue_init c fid s0 buf N = some s1) :
    trace c s1 ops = FifoSpec.trace c N [] ops
      ∧ (roomyPuts c s1 ops = true → drained c s1 ops <+: putBytes ops) := by
  obtain ⟨hwf, -, hnil⟩ := init_wf c fid s0 s1 buf N hN hN8 hinit
  refine ⟨by rw [trace_sim c N ops s1 hwf, hnil], fun hr => ?_⟩
  have h := drained_conserve c N hc ops s1 hwf hr
  rw [hnil, List.nil_append] at h
  exact ⟨_, h.symm⟩

/-- Witness of C1: capacity 2, six puts and drains with cursor wrap-around. -/
theorem C1_outqueue_refines_fifo_witness :
    (1 ≤ 2 ∧ 2 ≤ 255 ∧ 255 < exConsts.NO_CHAR
        ∧ outqueue_init exConsts 1 exBlank 100 2 = some (exInit 2)
        ∧ roomyPuts exConsts (exInit 2) exOps = true)
      ∧ trace exConsts (exInit 2) exOps = FifoSpec.trace exConsts 2 [] exOps
      ∧ drained exConsts (exInit 2) exOps <+: putBytes exOps
      ∧ drained exConsts (exInit 2) exOps = [0x41, 0x42, 0x43, 0x44] :=
  ⟨⟨by decide, by decide, by decide, rfl, by decide⟩,
    (C1_outqueue_refines_fifo exConsts 2 1 100 exBlank (exInit 2) exOps
      (by decide) (by decide) (by decide) rfl).1,
    (C1_outqueue_refines_fifo exConsts 2 1 100 exBlank (exInit 2) exOps
      (by decide) (by decide) (by decide) rfl).2 (by decide),
    by decide⟩

/-- C2: FIFO law. For every capacity `1 ≤ N` and every byte list `bs` with
`length bs ≤ N`, from the state produced by `outqueue_init` with size `N`, the
calls `outqueue_put` for each byte of `bs` in order all enqueue (none waits), and
`length bs` calls of `outqueue_getI` then return exactly the bytes of `bs` in
the same order. -/
theorem C2_fifo_law (c : Consts) (N fid buf t : Nat) (s0 s1 : State) (bs : List Nat)
    (hN : 1 ≤ N) (hN8 : N ≤ 255)
    (hinit : outqueue_init c fid s0 buf N = some s1)
    (hlen : bs.length ≤ N) (hb : ∀ b ∈ bs, b < 256) :
    trace c s1 (bs.map (fun b => Op.put b t) ++ List.replicate bs.length Op.getI)
      = bs.map (fun _ => Obs.put true) ++ bs.map Obs.got := by
  obtain ⟨hwf, hcnt, hnil⟩ := init_wf c fid s0 s1 buf N hN hN8 hinit
  obtain ⟨p1, -, p3, p4, -⟩ := puts_fit c N t bs s1 hwf (by omega)
  have hmod : bs.map (fun b => b % 256) = bs := by
    conv_rhs => rw [← List.map_id bs]
    apply List.map_congr_left
    intro b hbm
    exact Nat.mod_eq_of_lt (hb b hbm)
  rw [hnil, List.nil_append, hmod] at p3
  obtain ⟨-, -, g3⟩ := gets_all c N bs _ p1 p3
  rw [trace_append, p4, g3]

/-- Witness of C2: capacity 3 and the bytes `0x41, 0x42`. -/
theorem C2_fifo_law_witness :
    (1 ≤ 3 ∧ 3 ≤ 255 ∧ outqueue_init exConsts 1 exBlank 100 3 = some (exInit 3)
        ∧ [0x41, 0x42].length ≤ 3 ∧ ∀ b ∈ [0x41, 0x42], b < 256)
      ∧ trace exConsts (exInit 3)
          ([0x41, 0x42].map (fun b => Op.put b 0) ++ List.replicate [0x41, 0x42].length Op.getI)
        = [0x41, 0x42].map (fun _ => Obs.put true) ++ [0x41, 0x42].map Obs.got :=
  ⟨⟨by decide, by decide, rfl, by decide, by decide⟩,
    C2_fifo_law exConsts 3 1 100 0 exBlank (exInit 3) [0x41, 0x42]
      (by decide) (by decide) rfl (by decide) (by decide)⟩

/-- C3: free-slot invariant. In every state reachable from `outqueue_init` with
size `1 ≤ N`, `0 ≤ count ≤ N`; `outqueue_put` leaves `count` at 0 when it is 0 and
otherwise decrements it by exactly one (so never below 0), and `outqueue_getI`
does not increment `count` when `count = N`. -/
theorem C3_free_slot_invariant (c : Consts) (N : Nat) (s : State)
    (hN : 1 ≤ N) (hN8 : N ≤ 255) (hr : Reachable c N s) :
    (0 ≤ s.q.count ∧ s.q.count ≤ N)
      ∧ (∀ v t, (s.q.count = 0 → (outqueue_put c s v t).state.q.count = 0)
          ∧ (s.q.count ≠ 0 → (outqueue_put c s v t).state.q.count + 1 = s.q.count))
      ∧ (s.q.count = N → (outqueue_getI c s).2.q.count = N)
      ∧ (outqueue_getI c s).2.q.count ≤ N := by
  have hwf := reachable_wf c N s hN hN8 hr
  refine ⟨⟨Nat.zero_le _, hwf.cnt⟩, fun v t => ⟨fun h0 => ?_, fun h0 => ?_⟩, fun hfull => ?_, ?_⟩
  · rw [put_full c s v t h0]; exact h0
  · obtain ⟨s2, he, -, hcnt, -, -⟩ := put_room c N s v t hwf h0
    rw [he]; exact hcnt
  · rw [getI_empty c N s hwf hfull]; exact hfull
  · exact (step_sim c N s .getI hwf).1.cnt

/-- Witness of C3: the state after the interleaving `exOps` on capacity 2. -/
theorem C3_free_slot_invariant_witness :
    (1 ≤ 2 ∧ 2 ≤ 255 ∧ Reachable exConsts 2 (run exConsts (exInit 2) exOps))
      ∧ (run exConsts (exInit 2) exOps).q.count ≤ 2 :=
  ⟨⟨by decide, by decide, ⟨1, exBlank, exInit 2, 100, exOps, rfl, rfl⟩⟩,
    (C3_free_slot_invariant exConsts 2 (run exConsts (exInit 2) exOps) (by decide) (by decide)
      ⟨1, exBlank, exInit 2, 100, exOps, rfl, rfl⟩).1.2⟩

/-- C4: full/empty disambiguation. In every state reachable from `outqueue_init`
with size `1 ≤ N`, `p_write = p_read` holds only when `count = 0` (full) or
`count = N` (empty), and `outqueue_getI` returns `NO_CHAR` if and only if
`count = N`; and after exactly `N` puts from the initial state the cursors are
equal, `count = 0`, and `outqueue_getI` returns the first byte put, not
`NO_CHAR`. -/
theorem C4_full_empty_disambiguation (c : Consts) (N : Nat) (s : State)
    (hN : 1 ≤ N) (hN8 : N ≤ 255) (hc : 255 < c.NO_CHAR) (hr : Reachable c N s) :
    (s.q.p_write = s.q.p_read → s.q.count = 0 ∨ s.q.count = N)
      ∧ ((outqueue_getI c s).1 = c.NO_CHAR ↔ s.q.count = N)
      ∧ (∀ (fid buf t b : Nat) (s0 s1 : State) (bs : List Nat),
          outqueue_init c fid s0 buf N = some s1 → (b :: bs).length = N →
          (run c s1 ((b :: bs).map (fun x => Op.put x t))).q.p_write
              = (run c s1 ((b :: bs).map (fun x => Op.put x t))).q.p_read
            ∧ (run c s1 ((b :: bs).map (fun x => Op.put x t))).q.count = 0
            ∧ (outqueue_getI c (run c s1 ((b :: bs).map (fun x => Op.put x t)))).1 = b % 256
            ∧ (outqueue_getI c (run c s1 ((b :: bs).map (fun x => Op.put x t)))).1
                ≠ c.NO_CHAR) := by
  have hwf := reachable_wf c N s hN hN8 hr
  refine ⟨fun heq => ?_, ⟨fun hret => ?_, fun hfull => ?_⟩, ?_⟩
  · obtain ⟨-, -, htop, hlo, hhi, hcnt, hwr⟩ := hwf
    rw [hwr] at heq
    simp only [wrap] at heq
    split_ifs at heq <;> omega
  · by_contra hne
    obtain ⟨b, s2, he, -, hb, -, -, -, -⟩ := getI_nonempty c N s hwf hne
    rw [he] at hret
    simp only at hret
    omega
  · rw [getI_empty c N s hwf hfull]
  · intro fid buf t b s0 s1 bs hinit hlen
    obtain ⟨hwf1, hcnt1, hnil⟩ := init_wf c fid s0 s1 buf N hN hN8 hinit
    obtain ⟨p1, p2, p3, -, -⟩ := puts_fit c N t (b :: bs) s1 hwf1 (by omega)
    have h0 : (run c s1 ((b :: bs).map (fun x => Op.put x t))).q.count = 0 := by omega
    have hne : (run c s1 ((b :: bs).map (fun x => Op.put x t))).q.count ≠ N := by omega
    obtain ⟨b2, s2, he, -, hb2, -, hcont, -, -⟩ := getI_nonempty c N _ p1 hne
    rw [hnil, List.nil_append, hcont, List.map_cons] at p3
    injection p3 with hhead _
    obtain ⟨-, -, htop, hlo, hhi, hcnt, hwr⟩ := p1
    refine ⟨?_, h0, ?_, ?_⟩
    · rw [hwr, h0]; simp only [wrap]; split_ifs <;> omega
    · rw [he]; exact hhead
    · rw [he]; simp only; omega

/-- Witness of C4: two puts on capacity 2 make the cursors equal with `count = 0`,
and the drain returns the first byte. -/
theorem C4_full_empty_disambiguation_witness :
    (1 ≤ 2 ∧ 2 ≤ 255 ∧ 255 < exConsts.NO_CHAR
        ∧ Reachable exConsts 2 (run exConsts (exInit 2) [.put 0x41 0, .put 0x42 0]))
      ∧ ((outqueue_getI exConsts (run exConsts (exInit 2) [.put 0x41 0, .put 0x42 0])).1
            = exConsts.NO_CHAR
          ↔ (run exConsts (exInit 2) [.put 0x41 0, .put 0x42 0]).q.count = 2)
      ∧ (outqueue_getI exConsts (run exConsts (exInit 2) [.put 0x41 0, .put 0x42 0])).1 = 0x41 :=
  ⟨⟨by decide, by decide, by decide,
      ⟨1, exBlank, exInit 2, 100, [.put 0x41 0, .put 0x42 0], rfl, rfl⟩⟩,
    (C4_full_empty_disambiguation exConsts 2
      (run exConsts (exInit 2) [.put 0x41 0, .put 0x42 0]) (by decide) (by decide) (by decide)
      ⟨1, exBlank, exInit 2, 100, [.put 0x41 0, .put 0x42 0], rfl, rfl⟩).2.1,
    by decide⟩

/-- C5: round trip. For every `1 ≤ N` and every list of exactly `N` bytes,
`outqueue_init` with size `N`, then `outqueue_put` of the `N` bytes, then `N` calls
of `outqueue_getI` leave the buffer empty: `count = N`, and a further
`outqueue_getI` returns `NO_CHAR` and changes nothing. -/
theorem C5_round_trip (c : Consts) (N fid buf t : Nat) (s0 s1 : State) (bs : List Nat)
    (hN : 1 ≤ N) (hN8 : N ≤ 255)
    (hinit : outqueue_init c fid s0 buf N = some s1) (hlen : bs.length = N) :
    (run c s1 (bs.map (fun b => Op.put b t) ++ List.replicate N Op.getI)).q.count = N
      ∧ outqueue_getI c (run c s1 (bs.map (fun b => Op.put b t) ++ List.replicate N Op.getI))
          = (c.NO_CHAR, run c s1 (bs.map (fun b => Op.put b t) ++ List.replicate N Op.getI)) := by
  obtain ⟨hwf, hcnt, hnil⟩ := init_wf c fid s0 s1 buf N hN hN8 hinit
  obtain ⟨p1, -, p3, -, -⟩ := puts_fit c N t bs s1 hwf (by omega)
  obtain ⟨g1, g2, -⟩ := gets_all c N _ _ p1 p3
  have hl : (contents N s1 ++ bs.map (fun b => b % 256)).length = N := by
    rw [hnil]; simpa using hlen
  rw [hl] at g1 g2
  rw [run_append]
  exact ⟨g2, getI_empty c N _ g1 g2⟩

/-- Witness of C5: capacity 2 and the bytes `0x41, 0x42`. -/
theorem C5_round_trip_witness :
    (1 ≤ 2 ∧ 2 ≤ 255 ∧ outqueue_init exConsts 1 exBlank 100 2 = some (exInit 2)
        ∧ [0x41, 0x42].length = 2)
      ∧ (run exConsts (exInit 2)
          ([0x41, 0x42].map (fun b => Op.put b 0) ++ List.replicate 2 Op.getI)).q.count = 2 :=
  ⟨⟨by decide, by decide, rfl, rfl⟩,
    (C5_round_trip exConsts 2 1 100 0 exBlank (exInit 2) [0x41, 0x42]
      (by decide) (by decide) rfl rfl).1⟩

/-- C6: draining an empty buffer is a no-op. In every reachable state with
`count = N` (`1 ≤ N`), `outqueue_getI` returns `NO_CHAR`, leaves `p_read`,
`p_write`, `count` and the storage unchanged, and posts no flag. -/
theorem C6_drain_empty_noop (c : Consts) (N : Nat) (s : State)
    (hN : 1 ≤ N) (hN8 : N ≤ 255) (hr : Reachable c N s) (hempty : s.q.count = N) :
    (outqueue_getI c s).1 = c.NO_CHAR
      ∧ (outqueue_getI c s).2.q.p_read = s.q.p_read
      ∧ (outqueue_getI c s).2.q.p_write = s.q.p_write
      ∧ (outqueue_getI c s).2.q.count = s.q.count
      ∧ (outqueue_getI c s).2.mem = s.mem
      ∧ (outqueue_getI c s).2.posted = s.posted := by
  rw [getI_empty c N s (reachable_wf c N s hN hN8 hr) hempty]
  exact ⟨rfl, rfl, rfl, rfl, rfl, rfl⟩

/-- Witness of C6: the empty state left by the interleaving `exOps`. -/
theorem C6_drain_empty_noop_witness :
    (1 ≤ 2 ∧ 2 ≤ 255 ∧ Reachable exConsts 2 (run exConsts (exInit 2) exOps)
        ∧ (run exConsts (exInit 2) exOps).q.count = 2)
      ∧ (outqueue_getI exConsts (run exConsts (exInit 2) exOps)).1 = exConsts.NO_CHAR
      ∧ (outqueue_getI exConsts (run exConsts (exInit 2) exOps)).2.posted
          = (run exConsts (exInit 2) exOps).posted :=
  ⟨⟨by decide, by decide, ⟨1, exBlank, exInit 2, 100, exOps, rfl, rfl⟩, by decide⟩,
    (C6_drain_empty_noop exConsts 2 (run exConsts (exInit 2) exOps) (by decide) (by decide)
      ⟨1, exBlank, exInit 2, 100, exOps, rfl, rfl⟩ (by decide)).1,
    (C6_drain_empty_noop exConsts 2 (run exConsts (exInit 2) exOps) (by decide) (by decide)
      ⟨1, exBlank, exInit 2, 100, exOps, rfl, rfl⟩ (by decide)).2.2.2.2.2⟩

/-- C7: the capacity-4 scenario. After `outqueue_init` with size 4 and puts of
`0x41, 0x42, 0x43, 0x44` (all enqueued) the buffer is full (`count = 0`);
`outqueue_put` of `0x45` then enqueues nothing and waits on the queue's flag;
`outqueue_getI` returns `0x41`, sets `count` to 1 and posts the flag; the put
resumed with `E_OK` returns `E_OK`, and the buffer then holds, and four drains
return, `0x42, 0x43, 0x44, 0x45` in this order. -/
theorem C7_capacity_four_scenario (c : Consts) (fid buf t : Nat) (s0 s1 : State)
    (hinit : outqueue_init c fid s0 buf 4 = some s1) :
    trace c s1 (fourPuts t) = [.put true, .put true, .put true, .put true]
      ∧ (run c s1 (fourPuts t)).q.count = 0
      ∧ outqueue_put c (run c s1 (fourPuts t)) 0x45 t
          = .waiting fid 0 (run c s1 (fourPuts t))
      ∧ (outqueue_getI c (run c s1 (fourPuts t))).1 = 0x41
      ∧ (outqueue_getI c (run c s1 (fourPuts t))).2.q.count = 1
      ∧ (outqueue_getI c (run c s1 (fourPuts t))).2.posted
          = (run c s1 (fourPuts t)).posted ++ [fid]
      ∧ outqueue_put_resume c (outqueue_getI c (run c s1 (fourPuts t))).2 0x45 t c.E_OK
          = .returned c.E_OK (run c s1 (fourPuts t ++ [.getI, .resume 0x45 t c.E_OK]))
      ∧ contents 4 (run c s1 (fourPuts t ++ [.getI, .resume 0x45 t c.E_OK]))
          = [0x42, 0x43, 0x44, 0x45]
      ∧ trace c (run c s1 (fourPuts t ++ [.getI, .resume 0x45 t c.E_OK]))
            [.getI, .getI, .getI, .getI]
          = [.got 0x42, .got 0x43, .got 0x44, .got 0x45] := by
  obtain ⟨hwf, hcnt, hnil⟩ := init_wf c fid s0 s1 buf 4 (by decide) (by decide) hinit
  have hflag1 : s1.q.flag = fid := by rw [(init_inv c fid s0 s1 buf 4 hinit).1]
  obtain ⟨p1, p2, p3, p4, -⟩ := puts_fit c 4 t [0x41, 0x42, 0x43, 0x44] s1 hwf (by simp [hcnt])
  have hfp : List.map (fun b => Op.put b t) [0x41, 0x42, 0x43, 0x44] = fourPuts t := rfl
  rw [hfp] at p1 p2 p3 p4
  rw [hnil] at p3
  simp only [List.length_cons, List.length_nil, List.nil_append, List.map_cons, List.map_nil]
    at p2 p3 p4
  have h0 : (run c s1 (fourPuts t)).q.count = 0 := by omega
  have hflag4 : (run c s1 (fourPuts t)).q.flag = fid := by rw [run_flag, hflag1]
  obtain ⟨b, s5, he, hwf5, -, hcnt5, hcont5, hpost5, -⟩ :=
    getI_nonempty c 4 _ p1 (by omega)
  rw [p3] at hcont5
  injection hcont5 with hb hrest
  have hflag5 : s5.q.flag = fid := by
    have := step_flag c (run c s1 (fourPuts t)) .getI
    simp only [step, he] at this
    rw [this, hflag4]
  obtain ⟨s6, he6, hwf6, -, hcont6, -⟩ := put_room c 4 s5 0x45 t hwf5 (by omega)
  have hres : outqueue_put_resume c s5 0x45 t c.E_OK = .returned c.E_OK s6 := by
    simp [outqueue_put_resume, he6]
  have hrun : run c s1 (fourPuts t ++ [.getI, .resume 0x45 t c.E_OK]) = s6 := by
    rw [run_append]
    show step c (step c (run c s1 (fourPuts t)) .getI) (.resume 0x45 t c.E_OK) = s6
    have h5 : step c (run c s1 (fourPuts t)) .getI = s5 := by
      show (outqueue_getI c _).2 = s5
      rw [he]
    rw [h5]
    show (outqueue_put_resume c s5 0x45 t c.E_OK).state = s6
    rw [hres]
    rfl
  rw [← hrest] at hcont6
  have hc6 : contents 4 s6 = [0x42, 0x43, 0x44, 0x45] := by simpa using hcont6
  obtain ⟨-, -, g3⟩ := gets_all c 4 _ s6 hwf6 hc6
  rw [hrun, he]
  refine ⟨p4, h0, ?_, hb.symm, ?_, ?_, hres, hc6, ?_⟩
  · rw [← hflag4]; exact put_full c _ 0x45 t h0
  · simp only [hcnt5, h0]
  · simp only [hpost5, hflag4]
  · simpa using g3

/-- Witness of C7: the scenario on the sample initial state. -/
theorem C7_capacity_four_scenario_witness :
    outqueue_init exConsts 1 exBlank 100 4 = some (exInit 4)
      ∧ outqueue_put exConsts (run exConsts (exInit 4) (fourPuts 0)) 0x45 0
          = .waiting 1 0 (run exConsts (exInit 4) (fourPuts 0))
      ∧ (outqueue_getI exConsts (run exConsts (exInit 4) (fourPuts 0))).1 = 0x41 :=
  ⟨rfl,
    (C7_capacity_four_scenario exConsts 1 100 0 exBlank (exInit 4) rfl).2.2.1,
    (C7_capacity_four_scenario exConsts 1 100 0 exBlank (exInit 4) rfl).2.2.2.1⟩

/-- C8 (counterexample): `outqueue_init` called with size 0 and a created flag
does not fail; it returns a queue state. -/
theorem C8_size_zero_not_rejected :
    outqueue_init exConsts 1 exBlank 100 0 = some (exInit 0)
      ∧ outqueue_init exConsts 1 exBlank 100 0 ≠ none :=
  ⟨rfl, by simp [outqueue_init, exConsts]⟩

/-- C8 (amended): `outqueue_init` does not check `size`. For every size it fails
exactly when the flag creation returned `E_CREATE_FAIL`; called with size 0
and a created flag it returns a queue state whose four pointers all equal `buf`
and whose `count` is 0. -/
theorem C8_init_fails_only_on_flag (c : Consts) (fid buf : Nat) (s : State) :
    (∀ size, outqueue_init c fid s buf size = none ↔ fid = c.E_CREATE_FAIL)
      ∧ (fid ≠ c.E_CREATE_FAIL →
          ∃ s1, outqueue_init c fid s buf 0 = some s1
            ∧ s1.q.p_bot = buf ∧ s1.q.p_top = buf ∧ s1.q.p_read = buf ∧ s1.q.p_write = buf
            ∧ s1.q.count = 0) := by
  refine ⟨fun size => ?_, fun hf => ⟨_, init_some c fid s buf 0 hf, rfl, rfl, rfl, rfl, rfl⟩⟩
  by_cases hf : fid = c.E_CREATE_FAIL
  · simp [outqueue_init, hf]
  · simp [outqueue_init, hf]

/-- Witness of C8 (amended): flag id 1 on the sample constants. -/
theorem C8_init_fails_only_on_flag_witness :
    (1 ≠ exConsts.E_CREATE_FAIL)
      ∧ ∃ s1, outqueue_init exConsts 1 exBlank 100 0 = some s1
          ∧ s1.q.p_bot = 100 ∧ s1.q.p_top = 100 ∧ s1.q.p_read = 100 ∧ s1.q.p_write = 100
          ∧ s1.q.count = 0 :=
  ⟨by decide, (C8_init_fails_only_on_flag exConsts 1 100 exBlank).2 (by decide)⟩

/-- C9 (the code at the failing input): on the full capacity-4 queue,
`outqueue_put` called with any timeout `t`, for instance 5, suspends in a wait on
the queue's flag whose timeout is 0, not `t`. -/
theorem C9_put_ignores_timeout :
    (run exConsts (exInit 4) (fourPuts 5)).q.count = 0
      ∧ outqueue_put exConsts (run exConsts (exInit 4) (fourPuts 5)) 0x45 5
          = .waiting 1 0 (run exConsts (exInit 4) (fourPuts 5))
      ∧ ∀ t, outqueue_put exConsts (run exConsts (exInit 4) (fourPuts 5)) 0x45 t
          = .waiting 1 0 (run exConsts (exInit 4) (fourPuts 5)) :=
  ⟨by decide, put_full exConsts _ 0x45 5 (by decide), fun t => put_full exConsts _ 0x45 t (by decide)⟩

/-- C10: a failed put is atomic. For every queue state with `count = 0`,
`outqueue_put` suspends in the wait without changing the state; when the wait
returns a status `rc` other than `E_OK` (at once, or after any number of waits
that returned `E_OK` while the queue was still full), `outqueue_put` returns
exactly `rc` and the state (`count`, `p_read`, `p_write`, storage) is the one it
was called in; and whatever the state at the time of the wake-up, the resumed
put returns `rc` without changing it. -/
theorem C10_failed_put_atomic (c : Consts) (s : State) (v t rc : Nat)
    (h0 : s.q.count = 0) (hrc : rc ≠ c.E_OK) :
    (outqueue_put c s v t).state = s
      ∧ outqueue_put_resume c (outqueue_put c s v t).state v t rc = .returned rc s
      ∧ (∀ k, (outqueue_put c s v t).wakes c v t (List.replicate k c.E_OK ++ [rc])
          = .returned rc s)
      ∧ (∀ s2, outqueue_put_resume c s2 v t rc = .returned rc s2) := by
  have hres : ∀ s2, outqueue_put_resume c s2 v t rc = .returned rc s2 := by
    intro s2; simp [outqueue_put_resume, hrc]
  have hput := put_full c s v t h0
  refine ⟨by rw [hput]; rfl, by rw [hput]; exact hres s, fun k => ?_, hres⟩
  rw [hput]
  induction k with
  | zero => simp [PutOutcome.wakes, hres]
  | succ k ih =>
    have hok : outqueue_put_resume c s v t c.E_OK = .waiting s.q.flag 0 s := by
      simp [outqueue_put_resume, hput]
    simp only [List.replicate_succ, List.cons_append, PutOutcome.wakes, hok]
    exact ih

/-- Witness of C10: the full capacity-4 queue and the failing status 3. -/
theorem C10_failed_put_atomic_witness :
    ((run exConsts (exInit 4) (fourPuts 0)).q.count = 0 ∧ 3 ≠ exConsts.E_OK)
      ∧ outqueue_put_resume exConsts
          (outqueue_put exConsts (run exConsts (exInit 4) (fourPuts 0)) 0x45 0).state 0x45 0 3
        = .returned 3 (run exConsts (exInit 4) (fourPuts 0)) :=
  ⟨⟨by decide, by decide⟩,
    (C10_failed_put_atomic exConsts (run exConsts (exInit 4) (fourPuts 0)) 0x45 0 3
      (by decide) (by decide)).2.1⟩

/-- C17: mutation frames. In every reachable state of a queue of capacity
`1 ≤ N`: a put made when `count ≠ 0` succeeds (it returns `E_OK`), and it has
decremented `count` by exactly 1, stored its byte at the old `p_write`, advanced
`p_write` by one slot modulo `N` and left `p_read` and every other storage slot
unchanged (a put made when `count = 0` does not succeed, it waits); a drain made
when the queue holds a byte (`count ≠ N`) returns a byte, not `NO_CHAR`, namely
the byte at the old `p_read`, and it has incremented `count` by exactly 1,
advanced `p_read` by one slot modulo `N`, posted the flag and left `p_write` and
the whole storage unchanged (a drain made when `count = N` returns `NO_CHAR`). -/
theorem C17_mutation_frames (c : Consts) (N : Nat) (s : State)
    (hN : 1 ≤ N) (hN8 : N ≤ 255) (hc : 255 < c.NO_CHAR) (hr : Reachable c N s) :
    (∀ v t, s.q.count ≠ 0 →
        ∃ s2, outqueue_put c s v t = .returned c.E_OK s2
          ∧ s2.q.count + 1 = s.q.count
          ∧ load s2.mem s.q.p_write = v % 256
          ∧ s2.q.p_write = s.q.p_bot + (s.q.p_write - s.q.p_bot + 1) % N
          ∧ s2.q.p_read = s.q.p_read
          ∧ (∀ a, a ≠ s.q.p_write → s2.mem a = s.mem a)
          ∧ s2.q.p_bot = s.q.p_bot ∧ s2.q.p_top = s.q.p_top
          ∧ s2.q.flag = s.q.flag ∧ s2.posted = s.posted)
      ∧ (∀ v t, s.q.count = 0 → outqueue_put c s v t = .waiting s.q.flag 0 s)
      ∧ (s.q.count ≠ N →
          (outqueue_getI c s).1 ≠ c.NO_CHAR
            ∧ (outqueue_getI c s).1 = load s.mem s.q.p_read
            ∧ (outqueue_getI c s).2.q.count = s.q.count + 1
            ∧ (outqueue_getI c s).2.q.p_read
                = s.q.p_bot + (s.q.p_read - s.q.p_bot + 1) % N
            ∧ (outqueue_getI c s).2.q.p_write = s.q.p_write
            ∧ (outqueue_getI c s).2.mem = s.mem
            ∧ (outqueue_getI c s).2.q.p_bot = s.q.p_bot
            ∧ (outqueue_getI c s).2.q.p_top = s.q.p_top
            ∧ (outqueue_getI c s).2.posted = s.posted ++ [s.q.flag])
      ∧ (s.q.count = N → outqueue_getI c s = (c.NO_CHAR, s)) := by
  have hwf := reachable_wf c N s hN hN8 hr
  have hwb := wf_write_bounds N s hwf
  obtain ⟨hpos, hsmall, htop, hlo, hhi, hcnt, hwr⟩ := hwf
  refine ⟨fun v t h0 => ?_, fun v t h0 => put_full c s v t h0, fun hN2 => ?_,
    fun hfull => getI_empty c N s ⟨hpos, hsmall, htop, hlo, hhi, hcnt, hwr⟩ hfull⟩
  · have hcm : (s.q.count + 255) % 256 = s.q.count - 1 := by omega
    refine ⟨_, put_eq c s v t h0, ?_, ?_, ?_, rfl, ?_, rfl, rfl, rfl, rfl⟩
    · simp only [hcm]; omega
    · simp [load, store]
    · simp only [htop]
      exact advance_mod N s.q.p_bot s.q.p_write hN hwb.1 (by omega)
    · intro a ha
      simp [store, ha]
  · have hcond : ¬ (s.q.p_write = s.q.p_read ∧ s.q.count ≠ 0) := by
      rw [hwr]; simp only [wrap]; split_ifs <;> omega
    rw [getI_eq c s hcond]
    have hcm : (s.q.count + 1) % 256 = s.q.count + 1 := by omega
    have hlt : load s.mem s.q.p_read < 256 := Nat.mod_lt _ (by norm_num)
    refine ⟨by simp only; omega, rfl, hcm, ?_, rfl, rfl, rfl, rfl, rfl⟩
    simp only [htop]
    exact advance_mod N s.q.p_bot s.q.p_read hN hlo (by omega)

/-- Witness of C17: on the capacity-2 queue holding `0x41`, a put of `0x42`
succeeds with its frame, and a drain returns `0x41`, sets `count` to 2 and moves
`p_read` from 100 to 101. -/
theorem C17_mutation_frames_witness :
    (1 ≤ 2 ∧ 2 ≤ 255 ∧ 255 < exConsts.NO_CHAR
        ∧ Reachable exConsts 2 (run exConsts (exInit 2) [.put 0x41 0])
        ∧ (run exConsts (exInit 2) [.put 0x41 0]).q.count ≠ 0
        ∧ (run exConsts (exInit 2) [.put 0x41 0]).q.count ≠ 2)
      ∧ (∃ s2, outqueue_put exConsts (run exConsts (exInit 2) [.put 0x41 0]) 0x42 0
            = .returned exConsts.E_OK s2
          ∧ s2.q.count + 1 = (run exConsts (exInit 2) [.put 0x41 0]).q.count
          ∧ load s2.mem (run exConsts (exInit 2) [.put 0x41 0]).q.p_write = 0x42 % 256)
      ∧ ((outqueue_getI exConsts (run exConsts (exInit 2) [.put 0x41 0])).1
            ≠ exConsts.NO_CHAR
          ∧ (outqueue_getI exConsts (run exConsts (exInit 2) [.put 0x41 0])).1
              = load (run exConsts (exInit 2) [.put 0x41 0]).mem
                  (run exConsts (exInit 2) [.put 0x41 0]).q.p_read
          ∧ (outqueue_getI exConsts (run exConsts (exInit 2) [.put 0x41 0])).2.q.count
              = (run exConsts (exInit 2) [.put 0x41 0]).q.count + 1)
      ∧ (outqueue_getI exConsts (run exConsts (exInit 2) [.put 0x41 0])).1 = 0x41
      ∧ (outqueue_getI exConsts (run exConsts (exInit 2) [.put 0x41 0])).2.q.count = 2
      ∧ (run exConsts (exInit 2) [.put 0x41 0]).q.p_read = 100
      ∧ (outqueue_getI exConsts (run exConsts (exInit 2) [.put 0x41 0])).2.q.p_read = 101 :=
  ⟨⟨by decide, by decide, by decide,
      ⟨1, exBlank, exInit 2, 100, [.put 0x41 0], rfl, rfl⟩, by decide, by decide⟩,
    ((C17_mutation_frames exConsts 2 (run exConsts (exInit 2) [.put 0x41 0])
      (by decide) (by decide) (by decide)
      ⟨1, exBlank, exInit 2, 100, [.put 0x41 0], rfl, rfl⟩).1 0x42 0 (by decide)).imp
      fun _ h => ⟨h.1, h.2.1, h.2.2.1⟩,
    ⟨((C17_mutation_frames exConsts 2 (run exConsts (exInit 2) [.put 0x41 0])
        (by decide) (by decide) (by decide)
        ⟨1, exBlank, exInit 2, 100, [.put 0x41 0], rfl, rfl⟩).2.2.1 (by decide)).1,
      ((C17_mutation_frames exConsts 2 (run exConsts (exInit 2) [.put 0x41 0])
        (by decide) (by decide) (by decide)
        ⟨1, exBlank, exInit 2, 100, [.put 0x41 0], rfl, rfl⟩).2.2.1 (by decide)).2.1,
      ((C17_mutation_frames exConsts 2 (run exConsts (exInit 2) [.put 0x41 0])
        (by decide) (by decide) (by decide)
        ⟨1, exBlank, exInit 2, 100, [.put 0x41 0], rfl, rfl⟩).2.2.1 (by decide)).2.2.1⟩,
    by decide, by decide, by decide, by decide⟩

/-- C19: cursor bounds. In every state reached from `outqueue_init` with storage
`buf` and size `1 ≤ N` by any sequence of calls, `p_bot = buf`, `p_top = buf + N`,
and `p_read` and `p_write` lie in `[buf, buf + N)`; the store of a put that returns
changes no memory outside `[buf, buf + N)`, and the byte a drain returns is
loaded from `p_read`, inside the storage. -/
theorem C19_cursor_bounds (c : Consts) (N fid buf : Nat) (s0 s1 : State) (ops : List Op)
    (hN : 1 ≤ N) (hN8 : N ≤ 255)
    (hinit : outqueue_init c fid s0 buf N = some s1) :
    (run c s1 ops).q.p_bot = buf ∧ (run c s1 ops).q.p_top = buf + N
      ∧ buf ≤ (run c s1 ops).q.p_read ∧ (run c s1 ops).q.p_read < buf + N
      ∧ buf ≤ (run c s1 ops).q.p_write ∧ (run c s1 ops).q.p_write < buf + N
      ∧ (∀ v t rc s2, outqueue_put c (run c s1 ops) v t = .returned rc s2 →
          ∀ a, (a < buf ∨ buf + N ≤ a) → s2.mem a = (run c s1 ops).mem a)
      ∧ ((outqueue_getI c (run c s1 ops)).1 ≠ c.NO_CHAR →
          (outqueue_getI c (run c s1 ops)).1
            = load (run c s1 ops).mem (run c s1 ops).q.p_read) := by
  obtain ⟨hwf1, -, -⟩ := init_wf c fid s0 s1 buf N hN hN8 hinit
  have hwf := run_wf c N ops s1 hwf1
  have hq := (init_inv c fid s0 s1 buf N hinit).1
  obtain ⟨hb, ht⟩ := run_bounds c ops s1
  have hbot : (run c s1 ops).q.p_bot = buf := by rw [hb, hq]
  have htop : (run c s1 ops).q.p_top = buf + N := by rw [ht, hq]
  have hwb := wf_write_bounds N _ hwf
  have hlo := hwf.rd_lo
  have hhi := hwf.rd_hi
  rw [hbot] at hwb hlo
  rw [htop] at hwb hhi
  refine ⟨hbot, htop, hlo, hhi, hwb.1, hwb.2, ?_, ?_⟩
  · intro v t rc s2 hput a ha
    have h0 : (run c s1 ops).q.count ≠ 0 := by
      intro h0
      rw [put_full c _ v t h0] at hput
      cases hput
    rw [put_eq c _ v t h0] at hput
    injection hput with _ hs
    subst hs
    have : a ≠ (run c s1 ops).q.p_write := by omega
    simp [store, this]
  · intro hne
    have hN2 : (run c s1 ops).q.count ≠ N := by
      intro hfull
      exact hne (by rw [getI_empty c N _ hwf hfull])
    obtain ⟨-, -, htop2, hlo2, hhi2, hcnt2, hwr2⟩ := hwf
    have hcond : ¬ ((run c s1 ops).q.p_write = (run c s1 ops).q.p_read
        ∧ (run c s1 ops).q.count ≠ 0) := by
      rw [hwr2]; simp only [wrap]; split_ifs <;> omega
    rw [getI_eq c _ hcond]

/-- Witness of C19: the state after the interleaving `exOps` on capacity 2. -/
theorem C19_cursor_bounds_witness :
    (1 ≤ 2 ∧ 2 ≤ 255 ∧ outqueue_init exConsts 1 exBlank 100 2 = some (exInit 2))
      ∧ 100 ≤ (run exConsts (exInit 2) exOps).q.p_read
      ∧ (run exConsts (exInit 2) exOps).q.p_read < 100 + 2 :=
  ⟨⟨by decide, by decide, rfl⟩,
    (C19_cursor_bounds exConsts 2 1 100 exBlank (exInit 2) exOps (by decide) (by decide) rfl).2.2.1,
    (C19_cursor_bounds exConsts 2 1 100 exBlank (exInit 2) exOps
      (by decide) (by decide) rfl).2.2.2.1⟩

/-- C11: overrun. On a port whose queue is in a reachable state, two invocations
of `service_interrupt` whose first status read has `RXNE` set and whose data
register reads are `d1` then `d2`, with no `serial_getc` in between, both return;
the first leaves `rx_char = d1` and the second `rx_char = d2` (as 16-bit values),
whatever `rx_char` held before; each posts `rx_flag`, and no other field of the
`serial_t` changes. -/
theorem C11_overrun_keeps_second (hw : Hw) (c : Consts) (N : Nat) (w : Port)
    (SR1 SR2 : Nat → Nat) (d1 d2 fuel1 fuel2 : Nat)
    (hN : 1 ≤ N) (hN8 : N ≤ 255) (hr : Reachable c N w.out)
    (hf1 : N + 1 ≤ fuel1) (hf2 : N + 1 ≤ fuel2)
    (h1 : SR1 0 % 65536 &&& hw.USART_SR_RXNE ≠ 0)
    (h2 : SR2 0 % 65536 &&& hw.USART_SR_RXNE ≠ 0) :
    ∃ w1 n1 w2 n2, service_interrupt hw c fuel1 SR1 d1 w = some (w1, n1)
      ∧ service_interrupt hw c fuel2 SR2 d2 w1 = some (w2, n2)
      ∧ w1.serial = { w.serial with rx_char := d1 % 65536 }
      ∧ w2.serial = { w.serial with rx_char := d2 % 65536 }
      ∧ (d2 < 65536 → w2.serial.rx_char = d2)
      ∧ (∃ extra, w1.out.posted = w.out.posted ++ [w.serial.rx_flag] ++ extra)
      ∧ (∃ extra, w2.out.posted = w1.out.posted ++ [w.serial.rx_flag] ++ extra) := by
  have hwf := reachable_wf c N w.out hN hN8 hr
  obtain ⟨w1, n1, he1, -, hwf1, hset1, -⟩ :=
    service_interrupt_returns hw c SR1 d1 N fuel1 w hwf (by omega)
  obtain ⟨hser1, hpost1⟩ := hset1 h1
  obtain ⟨w2, n2, he2, -, -, hset2, -⟩ :=
    service_interrupt_returns hw c SR2 d2 N fuel2 w1 hwf1 (by omega)
  obtain ⟨hser2, hpost2⟩ := hset2 h2
  have hflag : w1.serial.rx_flag = w.serial.rx_flag := by rw [hser1]
  rw [hflag] at hpost2
  have hs2 : w2.serial = { w.serial with rx_char := d2 % 65536 } := by rw [hser2, hser1]
  refine ⟨w1, n1, w2, n2, he1, he2, hser1, hs2, fun hd => ?_, hpost1, hpost2⟩
  rw [hs2]
  exact Nat.mod_eq_of_lt hd

/-- Witness of C11: received values `0x41` then `0x42` on the sample port with an
empty capacity-4 queue. -/
theorem C11_overrun_keeps_second_witness :
    (1 ≤ 4 ∧ 4 ≤ 255 ∧ Reachable exConsts 4 (exPort (exInit 4)).out
        ∧ (0x20 % 65536 &&& exHw.USART_SR_RXNE ≠ 0))
      ∧ ∃ w1 n1 w2 n2,
          service_interrupt exHw exConsts 5 (fun _ => 0x20) 0x41 (exPort (exInit 4)) = some (w1, n1)
          ∧ service_interrupt exHw exConsts 5 (fun _ => 0x20) 0x42 w1 = some (w2, n2)
          ∧ w1.serial = { (exPort (exInit 4)).serial with rx_char := 0x41 % 65536 }
          ∧ w2.serial = { (exPort (exInit 4)).serial with rx_char := 0x42 % 65536 }
          ∧ (0x42 < 65536 → w2.serial.rx_char = 0x42)
          ∧ (∃ extra, w1.out.posted
              = (exPort (exInit 4)).out.posted ++ [(exPort (exInit 4)).serial.rx_flag] ++ extra)
          ∧ (∃ extra, w2.out.posted
              = w1.out.posted ++ [(exPort (exInit 4)).serial.rx_flag] ++ extra) :=
  ⟨⟨by decide, by decide, ⟨1, exBlank, exInit 4, 100, [], rfl, rfl⟩, by decide⟩,
    C11_overrun_keeps_second exHw exConsts 4 (exPort (exInit 4)) (fun _ => 0x20) (fun _ => 0x20)
      0x41 0x42 5 5 (by decide) (by decide) ⟨1, exBlank, exInit 4, 100, [], rfl, rfl⟩
      (by decide) (by decide) (by decide) (by decide)⟩

/-- C12: blocking read consumes the slot. `serial_getc` waits on `rx_flag`; when
the wait returns `E_OK` it returns the low 8 bits of `rx_char` and leaves `rx_char`
equal to `NO_CHAR`, changing no other field of the port state. -/
theorem C12_getc_consumes_slot (c : Consts) (w : Port) :
    (serial_getc_wait w).1 = w.serial.rx_flag
      ∧ serial_getc c w c.E_OK
          = some (w.serial.rx_char % 256,
                  { w with serial := { w.serial with rx_char := c.NO_CHAR } }) := by
  refine ⟨rfl, ?_⟩
  simp [serial_getc]

/-- C20: the interrupt handler terminates. On a port whose queue is in a
reachable state and holds `k = N - count` bytes, for every sequence of status
reads (also one in which `TXE` stays set for ever) and every data read,
`service_interrupt` returns after at most `k + 1` executions of the body of its
drain loop: any bound `fuel ≥ k + 1` on them suffices. -/
theorem C20_isr_terminates (hw : Hw) (c : Consts) (N : Nat) (w : Port)
    (SR : Nat → Nat) (DR fuel : Nat)
    (hN : 1 ≤ N) (hN8 : N ≤ 255) (hr : Reachable c N w.out)
    (hfuel : N - w.out.q.count + 1 ≤ fuel) :
    ∃ w2 n, service_interrupt hw c fuel SR DR w = some (w2, n)
      ∧ n ≤ N - w.out.q.count + 1 := by
  obtain ⟨w2, n, he, hn, -⟩ :=
    service_interrupt_returns hw c SR DR N fuel w (reachable_wf c N w.out hN hN8 hr) hfuel
  exact ⟨w2, n, he, hn⟩

/-- Witness of C20: the full capacity-4 queue with `TXE` set on every status read;
the loop body runs 5 times. -/
theorem C20_isr_terminates_witness :
    (1 ≤ 4 ∧ 4 ≤ 255
        ∧ Reachable exConsts 4 (exPort (run exConsts (exInit 4) (fourPuts 0))).out
        ∧ 4 - (exPort (run exConsts (exInit 4) (fourPuts 0))).out.q.count + 1 ≤ 5)
      ∧ (∃ w2 n, service_interrupt exHw exConsts 5 (fun _ => 0x80) 0
            (exPort (run exConsts (exInit 4) (fourPuts 0))) = some (w2, n)
          ∧ n ≤ 4 - (exPort (run exConsts (exInit 4) (fourPuts 0))).out.q.count + 1)
      ∧ (service_interrupt exHw exConsts 5 (fun _ => 0x80) 0
            (exPort (run exConsts (exInit 4) (fourPuts 0)))).map (fun x => x.2) = some 5 :=
  ⟨⟨by decide, by decide, ⟨1, exBlank, exInit 4, 100, fourPuts 0, rfl, rfl⟩, by decide⟩,
    C20_isr_terminates exHw exConsts 4 (exPort (run exConsts (exInit 4) (fourPuts 0)))
      (fun _ => 0x80) 0 5 (by decide) (by decide)
      ⟨1, exBlank, exInit 4, 100, fourPuts 0, rfl, rfl⟩ (by decide),
    by decide⟩

/-- C13: bring-up validates the device against the allow-list. `serial_start`
stops at `HALT()` if and only if the handle `u` is none of `USART1`, `USART2`,
`USART3`, `UART4`, `UART5`; for such a handle it does not return, and the port
state in which it stops differs from the one it was called in only in the
fields `device`, `speed` and `rx_char` assigned before the comparison: the
registers (control register included), the clock enables, the interrupt
controller, the mutex id, the receive flag and the ring buffer are
untouched. -/
theorem C13_start_halts_on_unknown_device (hw : Hw) (c : Consts) (mid rxfid qfid : Nat)
    (w : Port) (u speed : Nat) :
    ((∃ w2, serial_start hw c mid rxfid qfid w u speed = .stopped .HALT w2)
        ↔ (u ≠ hw.USART1 ∧ u ≠ hw.USART2 ∧ u ≠ hw.USART3 ∧ u ≠ hw.UART4 ∧ u ≠ hw.UART5))
      ∧ ((u ≠ hw.USART1 ∧ u ≠ hw.USART2 ∧ u ≠ hw.USART3 ∧ u ≠ hw.UART4 ∧ u ≠ hw.UART5) →
          serial_start hw c mid rxfid qfid w u speed
            = .stopped .HALT
                { w with serial := { w.serial with device := u, speed := speed,
                                                   rx_char := c.NO_CHAR } }) := by
  have hstop : (u ≠ hw.USART1 ∧ u ≠ hw.USART2 ∧ u ≠ hw.USART3 ∧ u ≠ hw.UART4 ∧ u ≠ hw.UART5) →
      serial_start hw c mid rxfid qfid w u speed
        = .stopped .HALT
            { w with serial := { w.serial with device := u, speed := speed,
                                               rx_char := c.NO_CHAR } } := by
    intro hu
    have hnone := (enable_none_iff hw
      { w with serial := { w.serial with device := u, speed := speed, rx_char := c.NO_CHAR } }
      u).2 hu
    simp only [serial_start, hnone]
  refine ⟨⟨fun ⟨w3, h3⟩ => ?_, fun hu => ⟨_, hstop hu⟩⟩, hstop⟩
  rw [← enable_none_iff hw
    { w with serial := { w.serial with device := u, speed := speed, rx_char := c.NO_CHAR } } u]
  cases he : serial_start_enable hw
    { w with serial := { w.serial with device := u, speed := speed, rx_char := c.NO_CHAR } } u with
  | none => rfl
  | some w2 => exact absurd h3 (start_no_halt hw c mid rxfid qfid w u speed w2 he w3)

/-- Witness of C13: the handle `0x40011400` is none of the five devices of the
sample constants. -/
theorem C13_start_halts_on_unknown_device_witness :
    (0x40011400 ≠ exHw.USART1 ∧ 0x40011400 ≠ exHw.USART2 ∧ 0x40011400 ≠ exHw.USART3
        ∧ 0x40011400 ≠ exHw.UART4 ∧ 0x40011400 ≠ exHw.UART5)
      ∧ serial_start exHw exConsts 3 2 1 (exPort exBlank) 0x40011400 9600
        = .stopped .HALT
            { exPort exBlank with
              serial := { (exPort exBlank).serial with device := 0x40011400, speed := 9600,
                                                       rx_char := exConsts.NO_CHAR } } :=
  ⟨by decide,
    (C13_start_halts_on_unknown_device exHw exConsts 3 2 1 (exPort exBlank) 0x40011400 9600).2
      (by decide)⟩

/-- C16: transmit drain of the interrupt handler. On a port whose queue is in a
reachable state and holds `k = N - count` bytes, when `TXE` is set on the first `m`
status reads of the invocation and clear on the next, `service_interrupt` returns
having executed its loop body `min m (k + 1)` times; it has appended exactly the
first `min m k` queued bytes, in order, to the values written to the data
register and removed exactly those bytes from the ring buffer; if `k < m` the
control register is `CR1 & ~TXEIE` (the `TXEIE` bits are clear, every other bit
is unchanged), and if `m ≤ k` it is unchanged. -/
theorem C16_isr_transmit_drain (hw : Hw) (c : Consts) (N : Nat) (w : Port)
    (SR : Nat → Nat) (DR m fuel : Nat)
    (hN : 1 ≤ N) (hN8 : N ≤ 255) (hc : 255 < c.NO_CHAR) (hr : Reachable c N w.out)
    (hfuel : N - w.out.q.count + 1 ≤ fuel)
    (hset : ∀ j, j < m → SR j % 65536 &&& hw.USART_SR_TXE ≠ 0)
    (hclr : SR m % 65536 &&& hw.USART_SR_TXE = 0) :
    ∃ w2 n, service_interrupt hw c fuel SR DR w = some (w2, n)
      ∧ n = min m (N - w.out.q.count + 1)
      ∧ (w2.usart w.serial.device).DR
          = (w.usart w.serial.device).DR
            ++ (contents N w.out).take (min m (N - w.out.q.count))
      ∧ contents N w2.out = (contents N w.out).drop (min m (N - w.out.q.count))
      ∧ (N - w.out.q.count < m →
          (w2.usart w.serial.device).CR1
              = andNot (w.usart w.serial.device).CR1 hw.USART_CR1_TXEIE
            ∧ ∀ i, ((w2.usart w.serial.device).CR1).testBit i
                = (((w.usart w.serial.device).CR1).testBit i
                    && !(hw.USART_CR1_TXEIE).testBit i))
      ∧ (m ≤ N - w.out.q.count →
          (w2.usart w.serial.device).CR1 = (w.usart w.serial.device).CR1) := by
  have hwf := reachable_wf c N w.out hN hN8 hr
  obtain ⟨w1, w2, n, he, hw1, hn, hd⟩ :=
    service_interrupt_drain hw c SR DR N m fuel w hc hwf hfuel hset hclr
  have hdr := hd.dr
  have hrest := hd.rest
  have hcr := hd.cr1
  have h1 : w1.serial.device = w.serial.device ∧ w1.usart = w.usart
      ∧ contents N w1.out = contents N w.out := by
    rcases hw1 with h | h <;> subst h <;> exact ⟨rfl, rfl, rfl⟩
  rw [h1.1, h1.2.1, h1.2.2] at hdr
  rw [h1.2.2] at hrest
  rw [h1.1, h1.2.1] at hcr
  refine ⟨w2, n, he, hn, hdr, hrest, fun hk => ?_, fun hk => ?_⟩
  · have hcl : (w2.usart w.serial.device).CR1
        = andNot (w.usart w.serial.device).CR1 hw.USART_CR1_TXEIE := by
      rw [hcr]; simp [hk]
    exact ⟨hcl, fun i => by rw [hcl, andNot_testBit]⟩
  · rw [hcr]
    have : ¬ (N - w.out.q.count < m) := by omega
    simp [this]

/-- Witness of C16: the full capacity-4 queue and `TXE` set on the first two
status reads; the bytes `0x41, 0x42` are written to the data register. -/
theorem C16_isr_transmit_drain_witness :
    (1 ≤ 4 ∧ 4 ≤ 255 ∧ 255 < exConsts.NO_CHAR
        ∧ Reachable exConsts 4 (exPort (run exConsts (exInit 4) (fourPuts 0))).out
        ∧ 4 - (exPort (run exConsts (exInit 4) (fourPuts 0))).out.q.count + 1 ≤ 5
        ∧ (∀ j, j < 2 → exTwoReady j % 65536 &&& exHw.USART_SR_TXE ≠ 0)
        ∧ exTwoReady 2 % 65536 &&& exHw.USART_SR_TXE = 0)
      ∧ (∃ w2 n, service_interrupt exHw exConsts 5 exTwoReady 0
            (exPort (run exConsts (exInit 4) (fourPuts 0))) = some (w2, n)
          ∧ n = min 2 (4 - (exPort (run exConsts (exInit 4) (fourPuts 0))).out.q.count + 1))
      ∧ (service_interrupt exHw exConsts 5 exTwoReady 0
            (exPort (run exConsts (exInit 4) (fourPuts 0)))).map
          (fun x => (x.1.usart 0x40013800).DR) = some [0x41, 0x42] :=
  ⟨⟨by decide, by decide, by decide, ⟨1, exBlank, exInit 4, 100, fourPuts 0, rfl, rfl⟩,
      by decide, by decide, by decide⟩,
    (C16_isr_transmit_drain exHw exConsts 4 (exPort (run exConsts (exInit 4) (fourPuts 0)))
      exTwoReady 0 2 5 (by decide) (by decide) (by decide)
      ⟨1, exBlank, exInit 4, 100, fourPuts 0, rfl, rfl⟩ (by decide) (by decide)
      (by decide)).imp fun _ h => h.imp fun _ h2 => ⟨h2.1, h2.2.1⟩,
    by decide⟩

/-- C15: interrupt masking is sufficient synchronisation for the producer.
`outqueue_put` is executed statement by statement from its entry, in a queue
state reachable for capacity `N`, with any initial interrupt mask, and an
interrupt handler calling `outqueue_getI` may run between any two statements
when interrupts are not masked. For every such interleaving: whenever the next
statement of the put reads or writes `count`, `p_write` or the storage (the
re-check of `count == 0` after a wake-up included), interrupts are masked;
`count ≤ N` at every moment; the bytes the handler drains are a prefix of the
queued bytes followed by the byte put; and outside the masked section the queue
is well formed and holds the old contents, followed by the byte put once the
update is complete, less the drained bytes. -/
theorem C15_masking_suffices (c : Consts) (N : Nat) (st : State) (v : Nat) (m0 : Bool)
    (evs : List Ev) (hN : 1 ≤ N) (hN8 : N ≤ 255) (hc : 255 < c.NO_CHAR)
    (hr : Reachable c N st) :
    ((exec c (put_entry st v m0) evs).1.task.pc.shared = true →
        (exec c (put_entry st v m0) evs).1.masked = true)
      ∧ (exec c (put_entry st v m0) evs).1.st.q.count ≤ N
      ∧ (exec c (put_entry st v m0) evs).2 <+: contents N st ++ [v % 256]
      ∧ ((exec c (put_entry st v m0) evs).1.task.pc.critical = false →
          WF N (exec c (put_entry st v m0) evs).1.st
            ∧ contents N st
                ++ (if (exec c (put_entry st v m0) evs).1.task.pc.enqueued c = true
                    then [v % 256] else [])
              = (exec c (put_entry st v m0) evs).2
                ++ contents N (exec c (put_entry st v m0) evs).1.st) := by
  have hwf := reachable_wf c N st hN hN8 hr
  have h0 : PutInv N (put_entry st v m0) (contents N st) := by
    exact (putInv_open N (put_entry st v m0) _ rfl).2 ⟨hwf, rfl⟩
  obtain ⟨lF, g1, g2, -, -⟩ := exec_inv c N hc evs (put_entry st v m0) (contents N st) h0
  have hnew : newly c (put_entry st v m0) (exec c (put_entry st v m0) evs).1
      = if (exec c (put_entry st v m0) evs).1.task.pc.enqueued c = true then [v % 256]
        else [] := by
    simp [newly, put_entry, Pc.enqueued]
  rw [hnew] at g2
  refine ⟨fun hsh => ?_, putInv_count N _ lF g1, ?_, fun hcrit => ?_⟩
  · apply putInv_masked N _ lF g1
    revert hsh
    cases (exec c (put_entry st v m0) evs).1.task.pc <;> simp [Pc.shared, Pc.critical]
  · by_cases he : (exec c (put_entry st v m0) evs).1.task.pc.enqueued c = true
    · simp only [he, if_true] at g2
      exact ⟨lF, g2.symm⟩
    · have g3 : contents N st = (exec c (put_entry st v m0) evs).2 ++ lF := by
        simpa [he] using g2
      exact ⟨lF ++ [v % 256], by rw [← List.append_assoc, ← g3]⟩
  · obtain ⟨hwfF, hcont⟩ := (putInv_open N _ lF hcrit).1 g1
    exact ⟨hwfF, by rw [hcont]; exact g2⟩

/-- Witness of C15: a put of `0x42` on a capacity-2 queue holding `0x41`, with
interrupts before, inside and after the masked section; the handler drains
`0x41` before the masking and `0x42` after the restoration. -/
theorem C15_masking_suffices_witness :
    (1 ≤ 2 ∧ 2 ≤ 255 ∧ 255 < exConsts.NO_CHAR
        ∧ Reachable exConsts 2 (run exConsts (exInit 2) [.put 0x41 0]))
      ∧ (exec exConsts (put_entry (run exConsts (exInit 2) [.put 0x41 0]) 0x42 false)
            exSchedule).2
          <+: contents 2 (run exConsts (exInit 2) [.put 0x41 0]) ++ [0x42 % 256]
      ∧ (exec exConsts (put_entry (run exConsts (exInit 2) [.put 0x41 0]) 0x42 false)
            exSchedule).2 = [0x41, 0x42]
      ∧ (exec exConsts (put_entry (run exConsts (exInit 2) [.put 0x41 0]) 0x42 false)
            exSchedule).1.task.pc = .returned 0 :=
  ⟨⟨by decide, by decide, by decide,
      ⟨1, exBlank, exInit 2, 100, [.put 0x41 0], rfl, rfl⟩⟩,
    (C15_masking_suffices exConsts 2 (run exConsts (exInit 2) [.put 0x41 0]) 0x42 false
      exSchedule (by decide) (by decide) (by decide)
      ⟨1, exBlank, exInit 2, 100, [.put 0x41 0], rfl, rfl⟩).2.2.1,
    by decide, by decide⟩

end Serial
